import Mathlib

/-!
Verification of the census-tract bikeway analysis pipeline.

The repository is a geospatial batch pipeline (`src/load.py`, `src/process.py`,
`src/analyze.py`) that loads census-tract polygons, CalEnviroScreen scores,
ACS demographics and a bikeways shapefile, spatially joins bikeway line
segments to tracts, merges everything into one master table, derives
per-tract rates, and runs OLS regression plus k-means clustering.

This file gives a shallow embedding of the parts of that code the claims
are about:

* identifier normalization (`load.py` lines 57-59 and 119-120) over lists
  of characters, with Python's `split('.')[0]` and `zfill` modelled
  directly;
* the geometry loader's column probing and error paths (`load.py` 32-54);
* the spatial join `load_bikeways` (`load.py` 134-221).  Planar geometry is
  modelled one-dimensionally: a bikeway segment and a tract polygon are
  rational intervals in the equal-area frame, geometric intersection is
  interval intersection, the length of a geometry is the length of its
  interval and the centroid is the midpoint.  The geopandas `overlay` call
  keeps exactly the nonempty pairwise intersections, and `sjoin` with the
  `within` predicate keeps the pairs whose centroid lies in the open
  interior of the polygon, matching shapely's semantics.  The possibility
  that `gpd.overlay` raises is an environment effect and is passed in as a
  boolean flag;
* `merge_layers` and the derived-rate functions of `process.py`, over typed
  rows whose numeric cells are `Option ℚ` (`none` is pandas `NA`/`NaN`; a
  pandas column that is absent is modelled as a column of `none`, which
  yields the same final cell values in every function below);
* `run_ols` and `add_clusters` of `analyze.py`.  The statsmodels fit and
  the scaler-plus-`KMeans` call are external library routines; they enter
  as explicit function parameters (`fitter`, `labeler`), with the library's
  shape guarantee (one label per fitted row) as a hypothesis.  Diagnostic
  `print` calls are modelled as an explicit list of emitted diagnostics.

Machine floats are modelled as exact rationals.
-/

/-! ### Identifier normalization (`load.py` 57-59 and 119-120) -/

/-- Raw identifiers are modelled as lists of characters. -/
abbrev Ident := List Char

/-- Python `s.split('.')[0]`: the text before the first decimal point. -/
def stripFrac (s : Ident) : Ident := s.takeWhile (fun c => c ≠ '.')

/-- Python `s.zfill (w)`: left-pad with `'0'` to width `w`. -/
def zfill (w : Nat) (s : Ident) : Ident := List.replicate (w - s.length) '0' ++ s

/-- The fixed state+county code `06037` prepended by the loaders. -/
def stateCounty : Ident := ['0', '6', '0', '3', '7']

/-- GEOID normalization of `load_census_tracts` (`load.py` 57-59):
`str(x).split('.')[0].zfill(6)` followed by
`x if x.startswith('06037') else '06037' + x`. -/
def normalizeTractGeoid (s : Ident) : Ident :=
  let t := zfill 6 (stripFrac s)
  if stateCounty.isPrefixOf t then t else stateCounty ++ t

/-- GEOID normalization of `load_calenviroscreen` (`load.py` 119-120):
`str(x).split('.')[0]` followed by `'0' + x if len(x) == 10 else x`. -/
def normalizeCesGeoid (s : Ident) : Ident :=
  let t := stripFrac s
  if t.length = 10 then '0' :: t else t

/-- Claim C2, counterexample.  The fractional-suffixed six-digit input
`"060371.5"` is returned by the boundary normalizer as the six-character
code `"060371"` (the code skips the prefix because the padded core already
starts with `06037`), not as an 11-character code; and the CalEnviroScreen
normalizer leaves the short fractional-suffixed input `"123456.0"` as the
six-character `"123456"`, which neither has 11 characters nor starts with
`06037`. -/
theorem c2_normalization_not_canonical_counterexample :
    normalizeTractGeoid ['0', '6', '0', '3', '7', '1', '.', '5']
        = ['0', '6', '0', '3', '7', '1']
    ∧ (normalizeTractGeoid ['0', '6', '0', '3', '7', '1', '.', '5']).length ≠ 11
    ∧ normalizeCesGeoid ['1', '2', '3', '4', '5', '6', '.', '0']
        = ['1', '2', '3', '4', '5', '6']
    ∧ (normalizeCesGeoid ['1', '2', '3', '4', '5', '6', '.', '0']).length ≠ 11
    ∧ stateCounty.isPrefixOf
        (normalizeCesGeoid ['1', '2', '3', '4', '5', '6', '.', '0']) = false := by
  decide

/-- Claim C2, amended.  Both normalizations are idempotent on canonical
identifiers: an 11-character identifier starting with `06037` and
containing no decimal point is returned unchanged by both normalizers.
For every fractional-suffixed or short digit-string input whose integer
part has at most six digits and whose zero-padded six-digit core does not
itself begin with `06037`, the boundary normalizer returns a fixed-length
11-character code beginning with `06037`. -/
theorem c2_normalization_idempotent_and_canonical (s : Ident) :
    (s.length = 11 → stateCounty.isPrefixOf s = true → '.' ∉ s →
      normalizeTractGeoid s = s ∧ normalizeCesGeoid s = s)
    ∧ ((∀ c ∈ stripFrac s, c.isDigit) → (stripFrac s).length ≤ 6 →
      stateCounty.isPrefixOf (zfill 6 (stripFrac s)) = false →
      (normalizeTractGeoid s).length = 11
        ∧ stateCounty.isPrefixOf (normalizeTractGeoid s) = true) := by
  constructor
  · intro hlen hpre hdot
    have hstrip : stripFrac s = s := by
      apply List.takeWhile_eq_self_iff.mpr
      intro c hc
      simp only [ne_eq, decide_eq_true_eq]
      intro h
      exact hdot (h ▸ hc)
    have hz : zfill 6 (stripFrac s) = s := by
      rw [hstrip, zfill, hlen]
      simp
    constructor
    · rw [normalizeTractGeoid, hz, hpre]
      simp
    · rw [normalizeCesGeoid, hstrip]
      simp [hlen]
  · intro _ hle hnp
    have hzlen : (zfill 6 (stripFrac s)).length = 6 := by
      rw [zfill, List.length_append, List.length_replicate]
      omega
    rw [normalizeTractGeoid, hnp]
    simp only [Bool.false_eq_true, if_false]
    constructor
    · rw [List.length_append, hzlen]
      rfl
    · exact List.isPrefixOf_iff_prefix.mpr (List.prefix_append _ _)

/-- Closed witness for the amended claim C2, at the canonical identifier
`"06037123456"` (idempotence half) and the short fractional input
`"1234.5"` (canonicalization half). -/
theorem c2_normalization_witness :
    ((['0', '6', '0', '3', '7', '1', '2', '3', '4', '5', '6'] : Ident).length = 11
      ∧ stateCounty.isPrefixOf
          ['0', '6', '0', '3', '7', '1', '2', '3', '4', '5', '6'] = true
      ∧ '.' ∉ (['0', '6', '0', '3', '7', '1', '2', '3', '4', '5', '6'] : Ident)
      ∧ normalizeTractGeoid ['0', '6', '0', '3', '7', '1', '2', '3', '4', '5', '6']
          = ['0', '6', '0', '3', '7', '1', '2', '3', '4', '5', '6']
      ∧ normalizeCesGeoid ['0', '6', '0', '3', '7', '1', '2', '3', '4', '5', '6']
          = ['0', '6', '0', '3', '7', '1', '2', '3', '4', '5', '6'])
    ∧ ((normalizeTractGeoid ['1', '2', '3', '4', '.', '5']).length = 11
      ∧ stateCounty.isPrefixOf (normalizeTractGeoid ['1', '2', '3', '4', '.', '5'])
          = true) := by
  refine ⟨⟨by decide, by decide, by decide, ?_, ?_⟩, ?_, ?_⟩
  · exact ((c2_normalization_idempotent_and_canonical _).1 (by decide) (by decide)
      (by decide)).1
  · exact ((c2_normalization_idempotent_and_canonical _).1 (by decide) (by decide)
      (by decide)).2
  · exact ((c2_normalization_idempotent_and_canonical
      ['1', '2', '3', '4', '.', '5']).2 (by decide) (by decide) (by decide)).1
  · exact ((c2_normalization_idempotent_and_canonical
      ['1', '2', '3', '4', '.', '5']).2 (by decide) (by decide) (by decide)).2

/-! ### Spatial join (`load_bikeways`, `load.py` 134-221)

Geometry is modelled one-dimensionally in the equal-area frame: a bikeway
segment is the interval `[a, b]` and a tract polygon the interval
`[lo, hi]`, both in meters.  Geometric length is interval length, the
centroid of a segment is its midpoint, `overlay(..., how='intersection')`
keeps each nonempty pairwise intersection, and `sjoin(..., predicate=
'within')` keeps the pairs whose centroid lies in the open interior of the
polygon. -/

/-- A bikeway line segment: the interval `[a, b]` (meters). -/
structure Seg where
  a : ℚ
  b : ℚ
deriving DecidableEq

/-- A loaded tract row: identifier plus polygon interval `[lo, hi]`. -/
structure TractGeom where
  gid : Ident
  lo : ℚ
  hi : ℚ
deriving DecidableEq

/-- Pandas `drop_duplicates` keeps the first occurrence of each key. -/
def dropDupAux (seen : List Ident) : List Ident → List Ident
  | [] => []
  | g :: rest => if g ∈ seen then dropDupAux seen rest else g :: dropDupAux (g :: seen) rest

/-- `tracts[['GEOID']].drop_duplicates()` (`load.py` 200, 217). -/
def dropDuplicates (l : List Ident) : List Ident := dropDupAux [] l

/-- The nonempty intersections of one segment with the tract polygons,
tagged with the tract identifier and carrying the length in meters of the
cut piece. -/
def segPieces (s : Seg) (tracts : List TractGeom) : List (Ident × ℚ) :=
  tracts.filterMap (fun t =>
    if max s.a t.lo ≤ min s.b t.hi then some (t.gid, min s.b t.hi - max s.a t.lo)
    else none)

/-- `gpd.overlay(bike_gdf, tracts, how='intersection', keep_geom_type=False)`
(`load.py` 175-180): every nonempty segment-tract intersection, tagged with
the tract identifier and carrying the length in meters of the cut piece. -/
def overlayPieces (segs : List Seg) (tracts : List TractGeom) : List (Ident × ℚ) :=
  segs.flatMap (fun s => segPieces s tracts)

/-- The centroid of a segment: its midpoint. -/
def segMid (s : Seg) : ℚ := (s.a + s.b) / 2

/-- Shapely `centroid.within(polygon)`: the midpoint lies in the open
interior of the tract interval. -/
def midWithin (s : Seg) (t : TractGeom) : Bool :=
  decide (t.lo < segMid s ∧ segMid s < t.hi)

/-- `gpd.sjoin(bike_centroids, tracts, predicate='within')` followed by
`joined['length_m'] = bike_gdf.loc[joined.index].geometry.length`
(`load.py` 189-205): each segment paired with every tract containing its
centroid, carrying the original unsplit segment length. -/
def segCentroidRows (s : Seg) (tracts : List TractGeom) : List (Ident × ℚ) :=
  (tracts.filter (fun t => midWithin s t)).map (fun t => (t.gid, s.b - s.a))

/-- `gpd.sjoin` over all segments (`load.py` 192-196 with 205). -/
def centroidJoin (segs : List Seg) (tracts : List TractGeom) : List (Ident × ℚ) :=
  segs.flatMap (fun s => segCentroidRows s tracts)

/-- The conversion constant `0.000621371` of `load.py` 211. -/
def metersToMiles : ℚ := 621371 / 1000000000

/-- The `bikeway_miles` cell for one tract identifier: meters-to-miles
conversion (`load.py` 211), `groupby("GEOID").sum()` (`load.py` 214) and
the `fillna` default of the left merge (`load.py` 218) combined. -/
def sumMilesFor (g : Ident) (joined : List (Ident × ℚ)) : ℚ :=
  ((joined.filter (fun p => decide (p.1 = g))).map (fun p => p.2 * metersToMiles)).sum

/-- Lines 210-218 of `load.py`: convert to miles, aggregate by identifier
and left-merge onto the de-duplicated tract identifier list, filling
missing aggregates with zero. -/
def finalizeBikeways (tracts : List TractGeom) (joined : List (Ident × ℚ)) :
    List (Ident × ℚ) :=
  (dropDuplicates (tracts.map TractGeom.gid)).map (fun g => (g, sumMilesFor g joined))

/-- `load_bikeways` (`load.py` 134-221) after both input files loaded
successfully.  `overlayRaises` is true when the `gpd.overlay` call raises,
in which case the code sets `joined` to an empty frame (`load.py` 181-183);
an empty `joined` triggers the centroid fallback, and an empty fallback
returns every known tract at zero miles. -/
def load_bikeways (overlayRaises : Bool) (segs : List Seg) (tracts : List TractGeom) :
    List (Ident × ℚ) :=
  let joined := if overlayRaises then [] else overlayPieces segs tracts
  if joined = [] then
    let fb := centroidJoin segs tracts
    if fb = [] then
      (dropDuplicates (tracts.map TractGeom.gid)).map (fun g => (g, 0))
    else finalizeBikeways tracts fb
  else finalizeBikeways tracts joined

/-- The piece table actually aggregated by the run of `load_bikeways`: the
exact overlay result when it is nonempty, else the centroid fallback. -/
def attributedPieces (overlayRaises : Bool) (segs : List Seg)
    (tracts : List TractGeom) : List (Ident × ℚ) :=
  let joined := if overlayRaises then [] else overlayPieces segs tracts
  if joined = [] then centroidJoin segs tracts else joined

/-- Geometric validity of the loaded segments: intervals are ordered. -/
def validSegs (segs : List Seg) : Prop := ∀ s ∈ segs, s.a ≤ s.b

/-- Two tract polygons share no interior (their intervals overlap in at
most a point), as census-tract partitions do. -/
def tractDisj (t u : TractGeom) : Prop := min t.hi u.hi ≤ max t.lo u.lo

/-- Length of the intersection of `[a, b]` with a tract, clamped at zero. -/
def clampLen (a b : ℚ) (t : TractGeom) : ℚ := max 0 (min b t.hi - max a t.lo)

/-! ### Interval-geometry lemmas for the spatial join -/

theorem clampLen_nonneg (a b : ℚ) (t : TractGeom) : 0 ≤ clampLen a b t :=
  le_max_left _ _

theorem clampLen_split (a m b : ℚ) (ham : a ≤ m) (hmb : m ≤ b) (u : TractGeom) :
    clampLen a b u = clampLen a m u + clampLen m b u := by
  simp only [clampLen, max_def, min_def]
  split_ifs <;> linarith

theorem clampLen_zero_of_disjoint {t u : TractGeom} {l r : ℚ}
    (hd : tractDisj t u) (hl : t.lo ≤ l) (hr : r ≤ t.hi) :
    clampLen l r u = 0 := by
  have h1 := min_le_left r u.hi
  have h2 := min_le_right r u.hi
  have h3 := le_max_left l u.lo
  have h4 := le_max_right l u.lo
  rw [clampLen, max_eq_left]
  rw [tractDisj] at hd
  rcases le_total t.hi u.hi with h | h <;> rcases le_total t.lo u.lo with h' | h'
  · rw [min_eq_left h, max_eq_right h'] at hd; linarith
  · rw [min_eq_left h, max_eq_left h'] at hd; linarith
  · rw [min_eq_right h, max_eq_right h'] at hd; linarith
  · rw [min_eq_right h, max_eq_left h'] at hd; linarith

theorem sum_map_add_distrib {α : Type} (l : List α) (f g : α → ℚ) :
    (l.map (fun x => f x + g x)).sum = (l.map f).sum + (l.map g).sum := by
  induction l with
  | nil => simp
  | cons x xs ih => simp only [List.map_cons, List.sum_cons, ih]; ring

/-- Pieces of one segment cut by pairwise interior-disjoint tract polygons
cover at most the segment: the sum of the clamped intersection lengths is
bounded by the segment length. -/
theorem sum_clampLen_le :
    ∀ (ts : List TractGeom), ts.Pairwise tractDisj →
      ∀ a b : ℚ, a ≤ b → ((ts.map (fun t => clampLen a b t)).sum) ≤ b - a := by
  intro ts
  induction ts with
  | nil =>
    intro _ a b hab
    simp
    linarith
  | cons t rest ih =>
    intro hp a b hab
    obtain ⟨hd, hp'⟩ := List.pairwise_cons.mp hp
    by_cases hir : max a t.lo ≤ min b t.hi
    · have hal : a ≤ max a t.lo := le_max_left _ _
      have hrb : min b t.hi ≤ b := min_le_left _ _
      have hsplit : ∀ u ∈ rest,
          clampLen a b u = clampLen a (max a t.lo) u + clampLen (min b t.hi) b u := by
        intro u hu
        have e1 : clampLen a b u
            = clampLen a (max a t.lo) u + clampLen (max a t.lo) b u :=
          clampLen_split _ _ _ hal (le_trans hir hrb) u
        have e2 : clampLen (max a t.lo) b u
            = clampLen (max a t.lo) (min b t.hi) u + clampLen (min b t.hi) b u :=
          clampLen_split _ _ _ hir hrb u
        have e3 : clampLen (max a t.lo) (min b t.hi) u = 0 :=
          clampLen_zero_of_disjoint (hd u hu) (le_max_right _ _) (min_le_right _ _)
        rw [e1, e2, e3]
        ring
      have hmapeq : (rest.map (fun u => clampLen a b u)).sum
          = (rest.map (fun u => clampLen a (max a t.lo) u)).sum
            + (rest.map (fun u => clampLen (min b t.hi) b u)).sum := by
        rw [← sum_map_add_distrib]
        congr 1
        exact List.map_congr_left hsplit
      have hhead : clampLen a b t = min b t.hi - max a t.lo := by
        rw [clampLen, max_eq_right]
        linarith
      have i1 := ih hp' a (max a t.lo) hal
      have i2 := ih hp' (min b t.hi) b hrb
      simp only [List.map_cons, List.sum_cons]
      rw [hhead, hmapeq]
      linarith
    · have hhead : clampLen a b t = 0 := by
        rw [clampLen, max_eq_left]
        push_neg at hir
        linarith
      have i1 := ih hp' a b hab
      simp only [List.map_cons, List.sum_cons]
      rw [hhead]
      linarith

/-- The lengths recorded for the pieces of one segment are exactly the
clamped intersection lengths of the intersecting tracts. -/
theorem segPieces_snd_sum (s : Seg) (ts : List TractGeom) :
    ((segPieces s ts).map Prod.snd).sum = (ts.map (fun t => clampLen s.a s.b t)).sum := by
  induction ts with
  | nil => simp [segPieces]
  | cons t rest ih =>
    simp only [segPieces, List.filterMap_cons] at ih ⊢
    by_cases h : max s.a t.lo ≤ min s.b t.hi
    · have hc : clampLen s.a s.b t = min s.b t.hi - max s.a t.lo := by
        rw [clampLen, max_eq_right]
        linarith
      rw [if_pos h]
      simp only [List.map_cons, List.sum_cons, hc, ih]
    · have hc : clampLen s.a s.b t = 0 := by
        rw [clampLen, max_eq_left]
        push_neg at h
        linarith
      rw [if_neg h]
      simp only [List.map_cons, List.sum_cons, hc, ih]
      linarith

/-- Exact-overlay total length conservation, in meters: under pairwise
interior-disjoint tracts the pieces never sum to more than the input. -/
theorem overlayPieces_snd_sum_le (segs : List Seg) (ts : List TractGeom)
    (hv : validSegs segs) (hd : ts.Pairwise tractDisj) :
    ((overlayPieces segs ts).map Prod.snd).sum
      ≤ (segs.map (fun s => s.b - s.a)).sum := by
  induction segs with
  | nil => simp [overlayPieces]
  | cons s rest ih =>
    have hs : s.a ≤ s.b := hv s (List.mem_cons_self s rest)
    have hrest : validSegs rest := fun u hu => hv u (List.mem_cons_of_mem s hu)
    have h1 : ((segPieces s ts).map Prod.snd).sum ≤ s.b - s.a := by
      rw [segPieces_snd_sum]
      exact sum_clampLen_le ts hd s.a s.b hs
    simp only [overlayPieces, List.flatMap_cons, List.map_append, List.sum_append,
      List.map_cons, List.sum_cons]
    have h2 := ih hrest
    simp only [overlayPieces] at h2
    linarith

theorem mem_dropDupAux (x : Ident) :
    ∀ (l : List Ident) (seen : List Ident),
      x ∈ dropDupAux seen l ↔ x ∈ l ∧ x ∉ seen := by
  intro l
  induction l with
  | nil => intro seen; simp [dropDupAux]
  | cons g rest ih =>
    intro seen
    by_cases hg : g ∈ seen
    · rw [dropDupAux, if_pos hg, ih]
      constructor
      · rintro ⟨h1, h2⟩
        exact ⟨List.mem_cons_of_mem g h1, h2⟩
      · rintro ⟨h1, h2⟩
        rcases List.mem_cons.mp h1 with h | h
        · exact absurd (h ▸ hg) h2
        · exact ⟨h, h2⟩
    · rw [dropDupAux, if_neg hg]
      rw [List.mem_cons, ih]
      constructor
      · rintro (h | ⟨h1, h2⟩)
        · exact ⟨List.mem_cons.mpr (Or.inl h), h ▸ hg⟩
        · refine ⟨List.mem_cons_of_mem g h1, fun hc => h2 (List.mem_cons_of_mem g hc)⟩
      · rintro ⟨h1, h2⟩
        rcases List.mem_cons.mp h1 with h | h
        · exact Or.inl h
        · by_cases hx : x = g
          · exact Or.inl hx
          · exact Or.inr ⟨h, fun hc => by
              rcases List.mem_cons.mp hc with h' | h'
              · exact hx h'
              · exact h2 h'⟩

theorem nodup_dropDupAux :
    ∀ (l : List Ident) (seen : List Ident), (dropDupAux seen l).Nodup := by
  intro l
  induction l with
  | nil => intro seen; simp [dropDupAux]
  | cons g rest ih =>
    intro seen
    by_cases hg : g ∈ seen
    · rw [dropDupAux, if_pos hg]
      exact ih seen
    · rw [dropDupAux, if_neg hg]
      refine List.nodup_cons.mpr ⟨fun hc => ?_, ih (g :: seen)⟩
      exact ((mem_dropDupAux g rest (g :: seen)).mp hc).2 (List.mem_cons_self g seen)

theorem mem_dropDuplicates (x : Ident) (l : List Ident) :
    x ∈ dropDuplicates l ↔ x ∈ l := by
  rw [dropDuplicates, mem_dropDupAux]
  simp

theorem nodup_dropDuplicates (l : List Ident) : (dropDuplicates l).Nodup :=
  nodup_dropDupAux l []

/-- Splitting a keyed sum at one key. -/
theorem sum_snd_filter_split (ps : List (Ident × ℚ)) (f : Ident × ℚ → ℚ)
    (q : Ident × ℚ → Bool) :
    ((ps.filter q).map f).sum
      + ((ps.filter (fun p => !(q p))).map f).sum
      = (ps.map f).sum := by
  induction ps with
  | nil => simp
  | cons p rest ih =>
    by_cases h : q p
    · simp [List.filter_cons, h]
      linarith [ih]
    · simp [List.filter_cons, h]
      linarith [ih]

/-- Grouping by key and re-summing over a duplicate-free covering key list
recovers the total. -/
theorem sum_filter_key_partition :
    ∀ (keys : List Ident) (ps : List (Ident × ℚ)) (f : Ident × ℚ → ℚ), keys.Nodup →
      (∀ p ∈ ps, p.1 ∈ keys) →
      (keys.map (fun g => ((ps.filter (fun p => decide (p.1 = g))).map f).sum)).sum
        = (ps.map f).sum := by
  intro keys
  induction keys with
  | nil =>
    intro ps f _ hcover
    cases ps with
    | nil => simp
    | cons p rest => exact absurd (hcover p (List.mem_cons_self p rest)) (by simp)
  | cons k ks ih =>
    intro ps f hnd hcover
    obtain ⟨hk, hnd'⟩ := List.nodup_cons.mp hnd
    have hsplit := sum_snd_filter_split ps f (fun p => decide (p.1 = k))
    have hfilter : ∀ g ∈ ks,
        ps.filter (fun p => decide (p.1 = g))
          = (ps.filter (fun p => !(decide (p.1 = k)))).filter
              (fun p => decide (p.1 = g)) := by
      intro g hg
      have hgk : g ≠ k := fun hgk => hk (hgk ▸ hg)
      rw [List.filter_filter]
      apply List.filter_congr
      intro p _
      by_cases hpg : p.1 = g
      · have hpk : ¬ p.1 = k := fun hc => hgk (hpg.symm.trans hc)
        simp [hpg, hpk, hgk]
      · simp [hpg]
    have hmap : (ks.map (fun g =>
        ((ps.filter (fun p => decide (p.1 = g))).map f).sum)).sum
        = (ks.map (fun g =>
            (((ps.filter (fun p => !(decide (p.1 = k)))).filter
              (fun p => decide (p.1 = g))).map f).sum)).sum := by
      congr 1
      exact List.map_congr_left fun g hg => by rw [hfilter g hg]
    have hcover' : ∀ p ∈ ps.filter (fun p => !(decide (p.1 = k))), p.1 ∈ ks := by
      intro p hp
      obtain ⟨hmem, hcond⟩ := List.mem_filter.mp hp
      have := hcover p hmem
      rcases List.mem_cons.mp this with h | h
      · simp [h] at hcond
      · exact h
    have hih := ih (ps.filter (fun p => !(decide (p.1 = k)))) f hnd' hcover'
    simp only [List.map_cons, List.sum_cons]
    rw [hmap, hih]
    linarith [hsplit]

theorem mem_segPieces {s : Seg} {ts : List TractGeom} {p : Ident × ℚ} :
    p ∈ segPieces s ts ↔ ∃ t ∈ ts, max s.a t.lo ≤ min s.b t.hi
      ∧ p = (t.gid, min s.b t.hi - max s.a t.lo) := by
  simp only [segPieces, List.mem_filterMap]
  constructor
  · rintro ⟨t, ht, hsome⟩
    by_cases hc : max s.a t.lo ≤ min s.b t.hi
    · rw [if_pos hc] at hsome
      exact ⟨t, ht, hc, (Option.some_inj.mp hsome).symm⟩
    · rw [if_neg hc] at hsome
      exact absurd hsome (by simp)
  · rintro ⟨t, ht, hc, rfl⟩
    exact ⟨t, ht, by rw [if_pos hc]⟩

theorem mem_segCentroidRows {s : Seg} {ts : List TractGeom} {p : Ident × ℚ} :
    p ∈ segCentroidRows s ts ↔ ∃ t ∈ ts, midWithin s t = true ∧ p = (t.gid, s.b - s.a) := by
  simp only [segCentroidRows, List.mem_map, List.mem_filter]
  constructor
  · rintro ⟨t, ⟨ht, hw⟩, rfl⟩
    exact ⟨t, ht, hw, rfl⟩
  · rintro ⟨t, ht, hw, rfl⟩
    exact ⟨t, ⟨ht, hw⟩, rfl⟩

theorem mem_overlayPieces {segs : List Seg} {ts : List TractGeom} {p : Ident × ℚ} :
    p ∈ overlayPieces segs ts ↔ ∃ s ∈ segs, p ∈ segPieces s ts := by
  simp [overlayPieces]

theorem mem_centroidJoin {segs : List Seg} {ts : List TractGeom} {p : Ident × ℚ} :
    p ∈ centroidJoin segs ts ↔ ∃ s ∈ segs, p ∈ segCentroidRows s ts := by
  simp [centroidJoin]

/-- A centroid strictly inside a tract forces a nonempty intersection with
the (valid) segment. -/
theorem midWithin_implies_meets {s : Seg} {t : TractGeom}
    (hs : s.a ≤ s.b) (hw : midWithin s t = true) :
    max s.a t.lo ≤ min s.b t.hi := by
  have h := of_decide_eq_true hw
  obtain ⟨h1, h2⟩ := h
  rw [segMid] at h1 h2
  have hma : s.a ≤ (s.a + s.b) / 2 := by linarith
  have hmb : (s.a + s.b) / 2 ≤ s.b := by linarith
  calc max s.a t.lo ≤ (s.a + s.b) / 2 := max_le hma (le_of_lt h1)
    _ ≤ min s.b t.hi := le_min hmb (le_of_lt h2)

theorem mem_finalizeBikeways {ts : List TractGeom} {joined : List (Ident × ℚ)}
    {g : Ident} {v : ℚ} :
    (g, v) ∈ finalizeBikeways ts joined
      ↔ g ∈ dropDuplicates (ts.map TractGeom.gid) ∧ v = sumMilesFor g joined := by
  simp only [finalizeBikeways, List.mem_map]
  constructor
  · rintro ⟨g', hg', heq⟩
    obtain ⟨h1, h2⟩ := Prod.mk.injEq _ _ _ _ ▸ heq
    exact ⟨h1 ▸ hg', h2.symm ▸ (by rw [h1])⟩
  · rintro ⟨hg, rfl⟩
    exact ⟨g, hg, rfl⟩

theorem finalizeBikeways_nil (ts : List TractGeom) :
    finalizeBikeways ts [] = (dropDuplicates (ts.map TractGeom.gid)).map (fun g => (g, 0)) := by
  simp [finalizeBikeways, sumMilesFor]

/-- All three exit paths of `load_bikeways` produce the final left-merge of
the branch's piece table onto the de-duplicated tract identifier list. -/
theorem load_bikeways_eq_finalize (oR : Bool) (segs : List Seg) (ts : List TractGeom) :
    load_bikeways oR segs ts = finalizeBikeways ts (attributedPieces oR segs ts) := by
  cases oR
  · by_cases h1 : overlayPieces segs ts = []
    · by_cases h2 : centroidJoin segs ts = []
      · simp [load_bikeways, attributedPieces, h1, h2, finalizeBikeways_nil]
      · simp [load_bikeways, attributedPieces, h1, h2]
    · simp [load_bikeways, attributedPieces, h1]
  · by_cases h2 : centroidJoin segs ts = []
    · simp [load_bikeways, attributedPieces, h2, finalizeBikeways_nil]
    · simp [load_bikeways, attributedPieces, h2]

theorem attributedPieces_exact {segs : List Seg} {ts : List TractGeom}
    (h : overlayPieces segs ts ≠ []) :
    attributedPieces false segs ts = overlayPieces segs ts := by
  simp [attributedPieces, h]

theorem attributedPieces_fb {oR : Bool} {segs : List Seg} {ts : List TractGeom}
    (hfb : oR = true ∨ overlayPieces segs ts = []) :
    attributedPieces oR segs ts = centroidJoin segs ts := by
  rcases hfb with h | h
  · subst h
    simp [attributedPieces]
  · cases oR <;> simp [attributedPieces, h]

theorem sumMilesFor_eq_zero {g : Ident} {joined : List (Ident × ℚ)}
    (hne : ∀ p ∈ joined, p.1 ≠ g) : sumMilesFor g joined = 0 := by
  rw [sumMilesFor, List.filter_eq_nil_iff.mpr (fun p hp => by simp [hne p hp])]
  rfl

theorem sum_map_scale {α : Type} (l : List α) (f : α → ℚ) :
    (l.map (fun x => f x * metersToMiles)).sum = (l.map f).sum * metersToMiles := by
  induction l with
  | nil => simp
  | cons x xs ih =>
    simp only [List.map_cons, List.sum_cons, ih]
    ring

/-- Every piece key the run aggregates comes from a loaded tract row. -/
theorem attributedPieces_keys (oR : Bool) (segs : List Seg) (ts : List TractGeom) :
    ∀ p ∈ attributedPieces oR segs ts, p.1 ∈ ts.map TractGeom.gid := by
  intro p hp
  have hsplit : p ∈ overlayPieces segs ts ∨ p ∈ centroidJoin segs ts := by
    by_cases h : (if oR then ([] : List (Ident × ℚ)) else overlayPieces segs ts) = []
    · right
      rw [attributedPieces] at hp
      rw [if_pos h] at hp
      exact hp
    · left
      rw [attributedPieces] at hp
      rw [if_neg h] at hp
      cases oR
      · exact hp
      · exact absurd rfl h
  rcases hsplit with h | h
  · obtain ⟨s, _, hps⟩ := mem_overlayPieces.mp h
    obtain ⟨t, ht, _, rfl⟩ := mem_segPieces.mp hps
    exact List.mem_map.mpr ⟨t, ht, rfl⟩
  · obtain ⟨s, _, hps⟩ := mem_centroidJoin.mp h
    obtain ⟨t, ht, _, rfl⟩ := mem_segCentroidRows.mp hps
    exact List.mem_map.mpr ⟨t, ht, rfl⟩

/-- The total of the final per-tract table equals the converted total of
the aggregated pieces. -/
theorem finalize_snd_sum (ts : List TractGeom) (joined : List (Ident × ℚ))
    (hcover : ∀ p ∈ joined, p.1 ∈ ts.map TractGeom.gid) :
    ((finalizeBikeways ts joined).map Prod.snd).sum
      = (joined.map Prod.snd).sum * metersToMiles := by
  have hnd := nodup_dropDuplicates (ts.map TractGeom.gid)
  have hcov' : ∀ p ∈ joined, p.1 ∈ dropDuplicates (ts.map TractGeom.gid) :=
    fun p hp => (mem_dropDuplicates _ _).mpr (hcover p hp)
  have hpart := sum_filter_key_partition (dropDuplicates (ts.map TractGeom.gid))
    joined (fun p => p.2 * metersToMiles) hnd hcov'
  have hshape : (finalizeBikeways ts joined).map Prod.snd
      = (dropDuplicates (ts.map TractGeom.gid)).map
          (fun g => ((joined.filter (fun p => decide (p.1 = g))).map
            (fun p => p.2 * metersToMiles)).sum) := by
    rw [finalizeBikeways, List.map_map]
    rfl
  rw [hshape, hpart, sum_map_scale]

instance decValidSegs (segs : List Seg) : Decidable (validSegs segs) :=
  inferInstanceAs (Decidable (∀ s ∈ segs, s.a ≤ s.b))

instance decTractDisj (t u : TractGeom) : Decidable (tractDisj t u) :=
  inferInstanceAs (Decidable (min t.hi u.hi ≤ max t.lo u.lo))

theorem map_fst_pair {β : Type} (l : List Ident) (f : Ident → β) :
    (l.map (fun g => (g, f g))).map Prod.fst = l := by
  induction l with
  | nil => rfl
  | cons x xs ih => simp [ih]

theorem sumMilesFor_append (g : Ident) (xs ys : List (Ident × ℚ)) :
    sumMilesFor g (xs ++ ys) = sumMilesFor g xs + sumMilesFor g ys := by
  simp [sumMilesFor, List.filter_append]

theorem both_within_not_disjoint {s : Seg} {t u : TractGeom}
    (ht : midWithin s t = true) (hu : midWithin s u = true) : ¬ tractDisj t u := by
  have h1 := of_decide_eq_true ht
  have h2 := of_decide_eq_true hu
  rw [tractDisj]
  push_neg
  calc max t.lo u.lo < segMid s := max_lt h1.1 h2.1
    _ < min t.hi u.hi := lt_min h1.2 h2.2

/-- Under pairwise interior-disjoint tracts, at most one tract row can
contain a given segment centroid (with any extra key restriction `q`). -/
theorem filter_within_length_le_one (s : Seg) (q : TractGeom → Bool) :
    ∀ ts : List TractGeom, ts.Pairwise tractDisj →
      (ts.filter (fun t => q t && midWithin s t)).length ≤ 1 := by
  intro ts
  induction ts with
  | nil => intro _; simp
  | cons t rest ih =>
    intro hp
    obtain ⟨hd, hp'⟩ := List.pairwise_cons.mp hp
    by_cases h : (q t && midWithin s t) = true
    · have hres : rest.filter (fun u => q u && midWithin s u) = [] := by
        apply List.filter_eq_nil_iff.mpr
        intro u hu hqu
        simp only [Bool.and_eq_true] at h hqu
        exact absurd (hd u hu) (both_within_not_disjoint h.2 hqu.2)
      rw [List.filter_cons, if_pos h, hres]
      simp
    · rw [List.filter_cons, if_neg h]
      exact ih hp'

/-- Value of the centroid fallback for one segment at one identifier:
the whole original segment length (converted) if some tract row with that
identifier contains the centroid, else zero. -/
theorem sumMilesFor_segCentroidRows (g : Ident) (s : Seg) (ts : List TractGeom)
    (hd : ts.Pairwise tractDisj) :
    sumMilesFor g (segCentroidRows s ts)
      = if ts.any (fun t => decide (t.gid = g) && midWithin s t)
        then (s.b - s.a) * metersToMiles else 0 := by
  have hshape : sumMilesFor g (segCentroidRows s ts)
      = ((ts.filter (fun t => decide (t.gid = g) && midWithin s t)).map
          (fun _ => (s.b - s.a) * metersToMiles)).sum := by
    rw [sumMilesFor, segCentroidRows, List.filter_map, List.map_map, List.filter_filter]
    rfl
  rw [hshape, List.map_const', List.sum_replicate]
  have hlen : (ts.filter (fun t => decide (t.gid = g) && midWithin s t)).length ≤ 1 :=
    filter_within_length_le_one s (fun t => decide (t.gid = g)) ts hd
  by_cases hany : ts.any (fun t => decide (t.gid = g) && midWithin s t) = true
  · rw [if_pos hany]
    obtain ⟨t, ht, hq⟩ := List.any_eq_true.mp hany
    have hne : t ∈ ts.filter (fun t => decide (t.gid = g) && midWithin s t) :=
      List.mem_filter.mpr ⟨ht, hq⟩
    have hpos : 0 < (ts.filter (fun t => decide (t.gid = g) && midWithin s t)).length :=
      List.length_pos.mpr (List.ne_nil_of_mem hne)
    have hone : (ts.filter (fun t => decide (t.gid = g) && midWithin s t)).length = 1 := by
      omega
    rw [hone, one_smul]
  · rw [if_neg hany]
    have hnil : ts.filter (fun t => decide (t.gid = g) && midWithin s t) = [] := by
      apply List.filter_eq_nil_iff.mpr
      intro u hu hq
      exact hany (List.any_eq_true.mpr ⟨u, hu, hq⟩)
    rw [hnil]
    simp

/-- The per-identifier value of the whole centroid fallback: the sum of
the original (unsplit) lengths, in miles, of the segments whose centroid
falls in a tract row carrying that identifier. -/
theorem sumMilesFor_centroidJoin (g : Ident) (segs : List Seg) (ts : List TractGeom)
    (hd : ts.Pairwise tractDisj) :
    sumMilesFor g (centroidJoin segs ts)
      = ((segs.filter (fun s =>
            ts.any (fun t => decide (t.gid = g) && midWithin s t))).map
          (fun s => (s.b - s.a) * metersToMiles)).sum := by
  induction segs with
  | nil => simp [sumMilesFor, centroidJoin]
  | cons s rest ih =>
    have h1 : centroidJoin (s :: rest) ts
        = segCentroidRows s ts ++ centroidJoin rest ts := by
      simp [centroidJoin]
    rw [h1, sumMilesFor_append, sumMilesFor_segCentroidRows g s ts hd, ih]
    by_cases hany : ts.any (fun t => decide (t.gid = g) && midWithin s t) = true
    · rw [if_pos hany, List.filter_cons, if_pos hany, List.map_cons, List.sum_cons]
    · rw [if_neg hany, List.filter_cons, if_neg hany]
      ring

theorem attributedPieces_sub {oR : Bool} {segs : List Seg} {ts : List TractGeom}
    {p : Ident × ℚ} (hp : p ∈ attributedPieces oR segs ts) :
    p ∈ overlayPieces segs ts ∨ p ∈ centroidJoin segs ts := by
  by_cases h : (if oR then ([] : List (Ident × ℚ)) else overlayPieces segs ts) = []
  · right
    rw [attributedPieces] at hp
    rw [if_pos h] at hp
    exact hp
  · left
    rw [attributedPieces] at hp
    rw [if_neg h] at hp
    cases oR
    · exact hp
    · exact absurd rfl h

theorem mem_attributedPieces {oR : Bool} {segs : List Seg} {ts : List TractGeom}
    {p : Ident × ℚ} (hp : p ∈ attributedPieces oR segs ts) :
    ∃ s ∈ segs, ∃ t ∈ ts, p.1 = t.gid
      ∧ (max s.a t.lo ≤ min s.b t.hi ∨ midWithin s t = true) := by
  rcases attributedPieces_sub hp with h | h
  · obtain ⟨s, hs, hps⟩ := mem_overlayPieces.mp h
    obtain ⟨t, ht, hc, rfl⟩ := mem_segPieces.mp hps
    exact ⟨s, hs, t, ht, rfl, Or.inl hc⟩
  · obtain ⟨s, hs, hps⟩ := mem_centroidJoin.mp h
    obtain ⟨t, ht, hw, rfl⟩ := mem_segCentroidRows.mp hps
    exact ⟨s, hs, t, ht, rfl, Or.inr hw⟩

/-- Claim C1.  For a run of `load_bikeways` that attributes lengths through
the exact intersection (the overlay call does not raise and yields at least
one match), the sum of per-tract attributed `bikeway_miles` over all rows
of the result is at most the total length in miles of the original input
segments; and every identifier whose tract rows intersect no segment gets
attributed length exactly zero (in any branch of the function). -/
theorem c1_exact_intersection_conservation (segs : List Seg) (ts : List TractGeom)
    (hv : validSegs segs) (hd : ts.Pairwise tractDisj) :
    (overlayPieces segs ts ≠ [] →
      ((load_bikeways false segs ts).map Prod.snd).sum
        ≤ (segs.map (fun s => (s.b - s.a) * metersToMiles)).sum)
    ∧ (∀ g v, (g, v) ∈ load_bikeways false segs ts →
        (∀ t ∈ ts, t.gid = g → ∀ s ∈ segs, ¬ max s.a t.lo ≤ min s.b t.hi) →
        v = 0) := by
  constructor
  · intro hne
    have hcov : ∀ p ∈ overlayPieces segs ts, p.1 ∈ ts.map TractGeom.gid := by
      have h := attributedPieces_keys false segs ts
      rw [attributedPieces_exact hne] at h
      exact h
    rw [load_bikeways_eq_finalize, attributedPieces_exact hne,
      finalize_snd_sum ts _ hcov, sum_map_scale]
    have hb := overlayPieces_snd_sum_le segs ts hv hd
    have hc : (0:ℚ) ≤ metersToMiles := by norm_num [metersToMiles]
    exact mul_le_mul_of_nonneg_right hb hc
  · intro g v hmem hno
    rw [load_bikeways_eq_finalize] at hmem
    obtain ⟨_, rfl⟩ := mem_finalizeBikeways.mp hmem
    apply sumMilesFor_eq_zero
    intro p hp hpg
    obtain ⟨s, hs, t, ht, hp1, hcase⟩ := mem_attributedPieces hp
    have hgid : t.gid = g := by rw [← hp1, hpg]
    rcases hcase with hmeet | hwithin
    · exact hno t ht hgid s hs hmeet
    · exact hno t ht hgid s hs (midWithin_implies_meets (hv s hs) hwithin)

/-- Closed witness for claim C1: one 1000 m segment split across two
interior-disjoint tracts. -/
theorem c1_exact_intersection_witness :
    validSegs [⟨0, 1000⟩]
    ∧ List.Pairwise tractDisj [⟨['a'], 0, 400⟩, ⟨['b'], 400, 1000⟩]
    ∧ ((overlayPieces [⟨0, 1000⟩] [⟨['a'], 0, 400⟩, ⟨['b'], 400, 1000⟩] ≠ [] →
        ((load_bikeways false [⟨0, 1000⟩]
            [⟨['a'], 0, 400⟩, ⟨['b'], 400, 1000⟩]).map Prod.snd).sum
          ≤ (([⟨0, 1000⟩] : List Seg).map
              (fun s => (s.b - s.a) * metersToMiles)).sum)
      ∧ (∀ g v, (g, v) ∈ load_bikeways false [⟨0, 1000⟩]
            [⟨['a'], 0, 400⟩, ⟨['b'], 400, 1000⟩] →
          (∀ t ∈ [⟨['a'], 0, 400⟩, ⟨['b'], 400, 1000⟩],
            TractGeom.gid t = g → ∀ s ∈ ([⟨0, 1000⟩] : List Seg),
              ¬ max s.a t.lo ≤ min s.b t.hi) →
          v = 0)) :=
  ⟨by decide, by decide,
    c1_exact_intersection_conservation _ _ (by decide) (by decide)⟩

/-- Claim C7.  In every branch, `load_bikeways` returns exactly one row
for every distinct loaded tract identifier, in the order of the
de-duplicated identifier list, and any identifier absent from the
aggregated piece table of the run appears with length zero rather than
being dropped. -/
theorem c7_left_join_all_tracts (oR : Bool) (segs : List Seg) (ts : List TractGeom) :
    (load_bikeways oR segs ts).map Prod.fst = dropDuplicates (ts.map TractGeom.gid)
    ∧ ((load_bikeways oR segs ts).map Prod.fst).Nodup
    ∧ (∀ g, g ∈ (load_bikeways oR segs ts).map Prod.fst ↔ g ∈ ts.map TractGeom.gid)
    ∧ (∀ g v, (g, v) ∈ load_bikeways oR segs ts →
        g ∉ (attributedPieces oR segs ts).map Prod.fst → v = 0) := by
  have hfst : (load_bikeways oR segs ts).map Prod.fst
      = dropDuplicates (ts.map TractGeom.gid) := by
    rw [load_bikeways_eq_finalize, finalizeBikeways]
    exact map_fst_pair _ _
  refine ⟨hfst, ?_, ?_, ?_⟩
  · rw [hfst]
    exact nodup_dropDuplicates _
  · intro g
    rw [hfst, mem_dropDuplicates]
  · intro g v hmem hnot
    rw [load_bikeways_eq_finalize] at hmem
    obtain ⟨_, rfl⟩ := mem_finalizeBikeways.mp hmem
    apply sumMilesFor_eq_zero
    intro p hp hpg
    exact hnot (List.mem_map.mpr ⟨p, hp, hpg⟩)

/-- Closed witness for claim C7, with a duplicated tract identifier and a
tract outside infrastructure coverage. -/
theorem c7_left_join_witness :
    (load_bikeways false [⟨0, 10⟩]
        [⟨['a'], 0, 10⟩, ⟨['a'], 0, 10⟩, ⟨['b'], 20, 30⟩]).map Prod.fst
      = dropDuplicates ([⟨['a'], 0, 10⟩, ⟨['a'], 0, 10⟩,
          ⟨['b'], 20, 30⟩].map TractGeom.gid) :=
  (c7_left_join_all_tracts false [⟨0, 10⟩]
    [⟨['a'], 0, 10⟩, ⟨['a'], 0, 10⟩, ⟨['b'], 20, 30⟩]).1

/-- Claim C3.  When the overlay raises or returns zero matches, the
function falls back to the centroid join: under interior-disjoint tracts
at most one tract row contains any given centroid, and each identifier is
attributed the sum of the full original (unsplit) lengths, in miles, of
exactly the segments whose centroid lies in a tract row with that
identifier; if the fallback also yields nothing, the function returns
every known tract identifier with length `0.0` instead of raising. -/
theorem c3_fallback_policy (oR : Bool) (segs : List Seg) (ts : List TractGeom)
    (hd : ts.Pairwise tractDisj)
    (hfb : oR = true ∨ overlayPieces segs ts = []) :
    (centroidJoin segs ts ≠ [] →
      (∀ s ∈ segs, (ts.filter (fun t => midWithin s t)).length ≤ 1)
      ∧ ∀ g v, (g, v) ∈ load_bikeways oR segs ts →
          v = ((segs.filter (fun s =>
              ts.any (fun t => decide (t.gid = g) && midWithin s t))).map
            (fun s => (s.b - s.a) * metersToMiles)).sum)
    ∧ (centroidJoin segs ts = [] →
      load_bikeways oR segs ts
        = (dropDuplicates (ts.map TractGeom.gid)).map (fun g => (g, 0))) := by
  constructor
  · intro _
    constructor
    · intro s _
      have heq : ts.filter (fun t => midWithin s t)
          = ts.filter (fun t => (fun _ => true) t && midWithin s t) := by
        apply List.filter_congr
        intro t _
        simp
      rw [heq]
      exact filter_within_length_le_one s (fun _ => true) ts hd
    · intro g v hmem
      rw [load_bikeways_eq_finalize, attributedPieces_fb hfb] at hmem
      obtain ⟨_, rfl⟩ := mem_finalizeBikeways.mp hmem
      exact sumMilesFor_centroidJoin g segs ts hd
  · intro hcj
    rw [load_bikeways_eq_finalize, attributedPieces_fb hfb, hcj, finalizeBikeways_nil]

/-- Closed witness for claim C3: the overlay raises, and the single
segment is attributed whole to the tract containing its midpoint. -/
theorem c3_fallback_witness :
    List.Pairwise tractDisj [⟨['a'], 0, 10⟩, ⟨['b'], 10, 20⟩]
    ∧ (true = true ∨ overlayPieces [⟨2, 4⟩] [⟨['a'], 0, 10⟩, ⟨['b'], 10, 20⟩] = [])
    ∧ ((centroidJoin [⟨2, 4⟩] [⟨['a'], 0, 10⟩, ⟨['b'], 10, 20⟩] ≠ [] →
        (∀ s ∈ ([⟨2, 4⟩] : List Seg),
          (([⟨['a'], 0, 10⟩, ⟨['b'], 10, 20⟩] : List TractGeom).filter
            (fun t => midWithin s t)).length ≤ 1)
        ∧ ∀ g v, (g, v) ∈ load_bikeways true [⟨2, 4⟩]
              [⟨['a'], 0, 10⟩, ⟨['b'], 10, 20⟩] →
            v = ((([⟨2, 4⟩] : List Seg).filter (fun s =>
                ([⟨['a'], 0, 10⟩, ⟨['b'], 10, 20⟩] : List TractGeom).any
                  (fun t => decide (t.gid = g) && midWithin s t))).map
              (fun s => (s.b - s.a) * metersToMiles)).sum)
      ∧ (centroidJoin [⟨2, 4⟩] [⟨['a'], 0, 10⟩, ⟨['b'], 10, 20⟩] = [] →
        load_bikeways true [⟨2, 4⟩] [⟨['a'], 0, 10⟩, ⟨['b'], 10, 20⟩]
          = (dropDuplicates ([⟨['a'], 0, 10⟩,
              ⟨['b'], 10, 20⟩].map TractGeom.gid)).map (fun g => (g, 0)))) :=
  ⟨by decide, Or.inl rfl,
    c3_fallback_policy true _ _ (by decide) (Or.inl rfl)⟩

/-! ### Geometry loader (`load_census_tracts`, `load.py` 26-72)

The claims about this function concern its error paths and the column
probing, so the raw boundary file is modelled as its list of column names
together with, per row, the raw identifier value of the probed identifier
column and the polygon interval; the geometry repair and reprojection are
identities in the interval model.  An unreadable file is the `none`
input. -/

/-- Python `needle in hay` on strings: substring test. -/
def isSubstring (needle : Ident) : Ident → Bool
  | [] => needle.isPrefixOf []
  | c :: rest => needle.isPrefixOf (c :: rest) || isSubstring needle rest

/-- The literal column candidates of `load.py` 48-52. -/
def ct20Name : Ident := ['C', 'T', '2', '0']

def geoidName : Ident := ['G', 'E', 'O', 'I', 'D']

def geoid10Name : Ident := ['G', 'E', 'O', 'I', 'D', '1', '0']

/-- The identifier-column probe of `load.py` 47-53: `CT20`, then `GEOID`,
then `GEOID10`, then the first column containing `GEOID`. -/
def geoidColumn (cols : List Ident) : Option Ident :=
  if ct20Name ∈ cols then some ct20Name
  else if geoidName ∈ cols then some geoidName
  else if geoid10Name ∈ cols then some geoid10Name
  else
    match cols.filter (fun c => isSubstring geoidName c) with
    | [] => none
    | c :: _ => some c

/-- One raw boundary row: the identifier value of the probed column and
the polygon interval (in the equal-area frame, after repair). -/
structure RawTractRow where
  rawId : Ident
  lo : ℚ
  hi : ℚ
deriving DecidableEq

/-- A successfully read boundary file: raw column names plus rows. -/
structure GeoInput where
  cols : List Ident
  rows : List RawTractRow
deriving DecidableEq

/-- The constant `3.86102e-7` of `load.py` 69. -/
def sqMetersToSqMiles : ℚ := 386102 / 1000000000000

/-- Result of the geometry loader: a table of `(GEOID, tract_area_sq_mi)`
rows, or the `KeyError` of `load.py` 54, which carries the columns found
in the file. -/
inductive TractLoadResult where
  | ok (rows : List (Ident × ℚ))
  | keyError (foundCols : List Ident)
deriving DecidableEq

/-- `load_census_tracts` (`load.py` 26-72): on a read failure it prints
the exception and returns an empty frame (`load.py` 34-36); otherwise it
upper-cases column names, probes for the identifier column (raising
`KeyError` listing the found columns when the probe fails), normalizes
identifiers and computes areas in square miles. -/
def load_census_tracts (input : Option GeoInput) : TractLoadResult :=
  match input with
  | none => .ok []
  | some f =>
    let cols := f.cols.map (fun c => c.map Char.toUpper)
    match geoidColumn cols with
    | some _ => .ok (f.rows.map (fun r =>
        (normalizeTractGeoid r.rawId, (r.hi - r.lo) * sqMetersToSqMiles)))
    | none => .keyError cols

/-- The probe fails exactly when `CT20` is absent and no column contains
the characters `GEOID`. -/
theorem geoidColumn_eq_none_iff (cols : List Ident) :
    geoidColumn cols = none
      ↔ ct20Name ∉ cols ∧ ∀ c ∈ cols, isSubstring geoidName c = false := by
  constructor
  · intro h
    rw [geoidColumn] at h
    by_cases h1 : ct20Name ∈ cols
    · rw [if_pos h1] at h
      exact absurd h (by simp)
    · rw [if_neg h1] at h
      by_cases h2 : geoidName ∈ cols
      · rw [if_pos h2] at h
        exact absurd h (by simp)
      · rw [if_neg h2] at h
        by_cases h3 : geoid10Name ∈ cols
        · rw [if_pos h3] at h
          exact absurd h (by simp)
        · rw [if_neg h3] at h
          refine ⟨h1, fun c hc => ?_⟩
          by_cases hsub : isSubstring geoidName c = true
          · have : c ∈ cols.filter (fun c => isSubstring geoidName c) :=
              List.mem_filter.mpr ⟨hc, hsub⟩
            rcases hfe : cols.filter (fun c => isSubstring geoidName c) with _ | ⟨d, ds⟩
            · rw [hfe] at this
              exact absurd this (by simp)
            · rw [hfe] at h
              exact absurd h (by simp)
          · exact Bool.eq_false_iff.mpr hsub
  · rintro ⟨h1, h2⟩
    have h2' : cols.filter (fun c => isSubstring geoidName c) = [] :=
      List.filter_eq_nil_iff.mpr (fun c hc => by simp [h2 c hc])
    have hg : geoidName ∉ cols := fun hc => by
      have := h2 geoidName hc
      simp [show isSubstring geoidName geoidName = true from by decide] at this
    have hg10 : geoid10Name ∉ cols := fun hc => by
      have := h2 geoid10Name hc
      simp [show isSubstring geoidName geoid10Name = true from by decide] at this
    rw [geoidColumn, if_neg h1, if_neg hg, if_neg hg10, h2']

/-- Claim C8, counterexample.  On an unreadable boundary file the loader
returns an empty frame instead of failing (`load.py` 34-36); and when no
identifier column exists the `KeyError` it raises carries the columns
actually found in the file (here `NAME`), not the candidate names it
tried. -/
theorem c8_unreadable_no_error_counterexample :
    load_census_tracts none = TractLoadResult.ok []
    ∧ load_census_tracts (some ⟨[['n', 'a', 'm', 'e']], []⟩)
        = TractLoadResult.keyError [['N', 'A', 'M', 'E']]
    ∧ ct20Name ∉ [(['N', 'A', 'M', 'E'] : Ident)]
    ∧ geoidName ∉ [(['N', 'A', 'M', 'E'] : Ident)]
    ∧ geoid10Name ∉ [(['N', 'A', 'M', 'E'] : Ident)] := by
  refine ⟨rfl, ?_, by decide, by decide, by decide⟩
  decide

/-- Claim C8, amended.  The geometry loader does not fail on an unreadable
boundary file: it prints the exception and returns an empty table.  It
raises a `KeyError` exactly when no identifier column is found among the
candidates (`CT20`, `GEOID`, `GEOID10`, or any column containing `GEOID`),
and that error message enumerates the columns actually found in the file
rather than the candidates tried; in all other cases it returns the loaded
tract table with normalized identifiers and areas. -/
theorem c8_load_error_paths (f : GeoInput) :
    load_census_tracts none = TractLoadResult.ok []
    ∧ ((ct20Name ∉ f.cols.map (fun c => c.map Char.toUpper)
        ∧ ∀ c ∈ f.cols.map (fun c => c.map Char.toUpper),
            isSubstring geoidName c = false) →
      load_census_tracts (some f)
        = TractLoadResult.keyError (f.cols.map (fun c => c.map Char.toUpper)))
    ∧ (∀ c, geoidColumn (f.cols.map (fun c => c.map Char.toUpper)) = some c →
      load_census_tracts (some f)
        = TractLoadResult.ok (f.rows.map (fun r =>
            (normalizeTractGeoid r.rawId, (r.hi - r.lo) * sqMetersToSqMiles)))) := by
  refine ⟨rfl, ?_, ?_⟩
  · intro h
    have hnone := (geoidColumn_eq_none_iff (f.cols.map (fun c => c.map Char.toUpper))).mpr h
    simp only [load_census_tracts, hnone]
  · intro c hc
    simp only [load_census_tracts, hc]

/-- Closed witness for the amended claim C8: a file whose only column is
`name` triggers the `KeyError` naming that column, and a file with a
lower-case `geoid` column loads (one row, area from a 2 sq-meter
interval). -/
theorem c8_load_error_paths_witness :
    ((ct20Name ∉ (GeoInput.mk [['n', 'a', 'm', 'e']] []).cols.map
          (fun c => c.map Char.toUpper)
      ∧ ∀ c ∈ (GeoInput.mk [['n', 'a', 'm', 'e']] []).cols.map
          (fun c => c.map Char.toUpper), isSubstring geoidName c = false)
      ∧ load_census_tracts (some (GeoInput.mk [['n', 'a', 'm', 'e']] []))
        = TractLoadResult.keyError [['N', 'A', 'M', 'E']])
    ∧ (geoidColumn ((GeoInput.mk [['g', 'e', 'o', 'i', 'd']]
          [⟨['1', '2', '3'], 0, 2⟩]).cols.map (fun c => c.map Char.toUpper))
        = some geoidName
      ∧ load_census_tracts (some (GeoInput.mk [['g', 'e', 'o', 'i', 'd']]
          [⟨['1', '2', '3'], 0, 2⟩]))
        = TractLoadResult.ok [(['0', '6', '0', '3', '7', '0', '0', '0', '1', '2', '3'],
            2 * sqMetersToSqMiles)]) := by
  constructor
  · constructor
    · constructor
      · decide
      · decide
    · exact (c8_load_error_paths (GeoInput.mk [['n', 'a', 'm', 'e']] [])).2.1
        ⟨by decide, by decide⟩
  · constructor
    · decide
    · have h := (c8_load_error_paths (GeoInput.mk [['g', 'e', 'o', 'i', 'd']]
        [⟨['1', '2', '3'], 0, 2⟩])).2.2 geoidName (by decide)
      rw [h]
      have hid : normalizeTractGeoid ['1', '2', '3']
          = ['0', '6', '0', '3', '7', '0', '0', '0', '1', '2', '3'] := by decide
      simp only [List.map_cons, List.map_nil, hid]
      norm_num

/-! ### Merge and derived fields (`process.py`)

Tables are lists of typed rows.  A cell holding pandas `NA`/`NaN` is
`none`.  A `GEOID` cell is a dynamic value (`GVal`): the raw files carry
both string and numeric identifiers, and `merge_layers` coerces them with
`astype(str)`.  `merge_layers` assigns that coercion in place on its `ces`
and `bike` arguments (`process.py` 81 and 86), so the embedding returns the
post-call state of the three table arguments alongside the merged table. -/

/-- A pandas `GEOID` cell: a string or a number (coerced by `astype(str)`). -/
inductive GVal where
  | s (v : Ident)
  | num (n : Nat)
deriving DecidableEq

/-- Python `str(x)` / `astype(str)` on a `GEOID` cell. -/
def pyStr : GVal → GVal
  | .s v => .s v
  | .num n => .s (Nat.toDigits 10 n)

/-- One ACS demographic row (`fetch_acs_los_angeles`, `load.py` 248-252). -/
structure AcsRow where
  geoid : GVal
  median_income : Option ℚ
  population : Option ℚ
  households_no_vehicle : Option ℚ
  total_households : Option ℚ
deriving DecidableEq

/-- One CalEnviroScreen row (`load_calenviroscreen`, `load.py` 128-132). -/
structure CesRow where
  geoid : GVal
  ces_score : Option ℚ
  pm25 : Option ℚ
deriving DecidableEq

/-- One aggregated bikeway row (`load_bikeways` output). -/
structure BikeRow where
  geoid : GVal
  bikeway_miles : Option ℚ
deriving DecidableEq

/-- One tract row as consumed by `merge_layers` (identifier and area). -/
structure TractRow where
  geoid : GVal
  tract_area_sq_mi : Option ℚ
deriving DecidableEq

/-- One row of the master table produced by `merge_layers`, including the
derived columns added later by the `add_*` functions of `process.py`
(absent pandas columns are modelled as columns of `none`). -/
structure MRow where
  geoid : GVal
  median_income : Option ℚ
  population : Option ℚ
  households_no_vehicle : Option ℚ
  total_households : Option ℚ
  ces_score : Option ℚ
  pm25 : Option ℚ
  bikeway_miles : Option ℚ
  tract_area_sq_mi : Option ℚ
  vehicle_rate : Option ℚ
  bikeway_miles_per_1000 : Option ℚ
  bike_lane_density_sq_mi : Option ℚ
deriving DecidableEq

/-- The master row seeded from one anchor (ACS) row, with the master
`GEOID` coerced to string (`process.py` 78). -/
def mrowOfAcs (r : AcsRow) : MRow where
  geoid := pyStr r.geoid
  median_income := r.median_income
  population := r.population
  households_no_vehicle := r.households_no_vehicle
  total_households := r.total_households
  ces_score := none
  pm25 := none
  bikeway_miles := none
  tract_area_sq_mi := none
  vehicle_rate := none
  bikeway_miles_per_1000 := none
  bike_lane_density_sq_mi := none

/-- Pandas `m.merge(right, on="GEOID", how="left")`: every anchor row is
kept; a row with matches is repeated once per matching right row. -/
def leftMergeBy {beta : Type} (key : beta → GVal) (comb : MRow → beta → MRow)
    (m : List MRow) (right : List beta) : List MRow :=
  m.flatMap (fun r =>
    match right.filter (fun c => key c = r.geoid) with
    | [] => [r]
    | ms => ms.map (comb r))

def coerceGeoidCes (c : CesRow) : CesRow := { c with geoid := pyStr c.geoid }

def coerceGeoidBike (b : BikeRow) : BikeRow := { b with geoid := pyStr b.geoid }

/-- `tract_area.drop_duplicates(subset=['GEOID'])` (`process.py` 92): keep
the first row per raw identifier. -/
def dropDupTractsAux (seen : List GVal) : List TractRow → List TractRow
  | [] => []
  | t :: rest =>
    if t.geoid ∈ seen then dropDupTractsAux seen rest
    else t :: dropDupTractsAux (t.geoid :: seen) rest

def dropDupTracts (ts : List TractRow) : List TractRow := dropDupTractsAux [] ts

/-- `merge_layers` (`process.py` 68-103).  Returns the master table and
the post-call states of the `acs`, `ces` and `bike` arguments: `acs` is
copied before its `GEOID` assignment, but `ces` and `bike` receive the
`astype(str)` column assignment in place when nonempty; the tract-area
frame is copied before modification, so `tracts` is never changed. -/
def merge_layers (acs : List AcsRow) (ces : List CesRow) (bike : List BikeRow)
    (tracts : Option (List TractRow)) :
    List MRow × List AcsRow × List CesRow × List BikeRow :=
  let m0 := acs.map mrowOfAcs
  let ces' := if ces.isEmpty then ces else ces.map coerceGeoidCes
  let m1 := if ces.isEmpty then m0
    else leftMergeBy CesRow.geoid
      (fun r c => { r with ces_score := c.ces_score, pm25 := c.pm25 }) m0
      (ces.map coerceGeoidCes)
  let bike' := if bike.isEmpty then bike else bike.map coerceGeoidBike
  let m2 := if bike.isEmpty then m1
    else leftMergeBy BikeRow.geoid
      (fun r b => { r with bikeway_miles := b.bikeway_miles }) m1
      (bike.map coerceGeoidBike)
  let m3 := match tracts with
    | none => m2
    | some ts =>
      if ts.isEmpty then m2
      else leftMergeBy TractRow.geoid
        (fun r (t : TractRow) => { r with tract_area_sq_mi := t.tract_area_sq_mi }) m2
        ((dropDupTracts ts).map (fun (t : TractRow) => { t with geoid := pyStr t.geoid }))
  let m4 := m3.map (fun r => { r with bikeway_miles := some (r.bikeway_miles.getD 0) })
  (m4, acs, ces', bike')

/-- Pandas `.replace(0, pd.NA)` on a numeric cell. -/
def replaceZero (x : Option ℚ) : Option ℚ :=
  match x with
  | some v => if v = 0 then none else some v
  | none => none

/-- Pandas division of two nullable numeric cells (`NA` propagates). -/
def optDiv (x y : Option ℚ) : Option ℚ :=
  match x, y with
  | some a, some b => some (a / b)
  | _, _ => none

/-- `add_vehicle_rate` (`process.py` 11-26):
`households_no_vehicle / population.replace(0, NA)`. -/
def add_vehicle_rate (df : List MRow) : List MRow :=
  df.map (fun r =>
    { r with vehicle_rate := optDiv r.households_no_vehicle (replaceZero r.population) })

/-- `add_bikeway_per_capita` (`process.py` 28-41): fill missing miles with
zero, then `(bikeway_miles / population.replace(0, NA)) * 1000`. -/
def add_bikeway_per_capita (df : List MRow) : List MRow :=
  df.map (fun r =>
    { r with bikeway_miles := some (r.bikeway_miles.getD 0),
             bikeway_miles_per_1000 :=
               (optDiv (some (r.bikeway_miles.getD 0))
                 (replaceZero r.population)).map (fun q => q * 1000) })

/-- `add_bike_lane_area_density` (`process.py` 43-66): fill missing miles
with zero, then `bikeway_miles / tract_area_sq_mi.replace(0, NA)` (a
missing area column is a column of `none`, giving `NA` as in the code's
missing-column branch). -/
def add_bike_lane_area_density (df : List MRow) : List MRow :=
  df.map (fun r =>
    { r with bikeway_miles := some (r.bikeway_miles.getD 0),
             bike_lane_density_sq_mi :=
               optDiv (some (r.bikeway_miles.getD 0))
                 (replaceZero r.tract_area_sq_mi) })

theorem filter_key_length_le_one {beta : Type} (key : beta → GVal) (g : GVal) :
    ∀ right : List beta, (right.map key).Nodup →
      (right.filter (fun c => decide (key c = g))).length ≤ 1 := by
  intro right
  induction right with
  | nil => intro _; simp
  | cons c rest ih =>
    intro hnd
    rw [List.map_cons] at hnd
    obtain ⟨hc, hnd'⟩ := List.nodup_cons.mp hnd
    by_cases h : key c = g
    · have hres : rest.filter (fun u => decide (key u = g)) = [] := by
        apply List.filter_eq_nil_iff.mpr
        intro u hu hqu
        have : key u = g := of_decide_eq_true hqu
        exact hc (List.mem_map.mpr ⟨u, hu, by rw [this, h]⟩)
      rw [List.filter_cons, if_pos (by simp [h]), hres]
      simp
    · rw [List.filter_cons, if_neg (by simp [h])]
      exact ih hnd'

theorem leftMergeBy_length_ge {beta : Type} (key : beta → GVal)
    (comb : MRow → beta → MRow) (right : List beta) :
    ∀ m : List MRow, m.length ≤ (leftMergeBy key comb m right).length := by
  intro m
  induction m with
  | nil => simp [leftMergeBy]
  | cons r rest ih =>
    simp only [leftMergeBy, List.flatMap_cons, List.length_append, List.length_cons]
    simp only [leftMergeBy] at ih
    rcases h : right.filter (fun c => key c = r.geoid) with _ | ⟨a, as⟩
    · simp only [List.length_cons, List.length_nil]
      omega
    · simp only [List.length_map, List.length_cons]
      omega

theorem leftMergeBy_length_eq {beta : Type} (key : beta → GVal)
    (comb : MRow → beta → MRow) (right : List beta)
    (hnd : (right.map key).Nodup) :
    ∀ m : List MRow, (leftMergeBy key comb m right).length = m.length := by
  intro m
  induction m with
  | nil => simp [leftMergeBy]
  | cons r rest ih =>
    simp only [leftMergeBy, List.flatMap_cons, List.length_append, List.length_cons]
    simp only [leftMergeBy] at ih
    have hle := filter_key_length_le_one key r.geoid right hnd
    rcases h : right.filter (fun c => key c = r.geoid) with _ | ⟨a, as⟩
    · simp only [List.length_cons, List.length_nil]
      omega
    · have : (a :: as).length ≤ 1 := by
        rw [← h]
        simpa using hle
      simp only [List.length_cons] at this
      have has : as = [] := List.length_eq_zero.mp (by omega)
      subst has
      simp only [List.map_cons, List.map_nil, List.length_cons, List.length_nil]
      omega

theorem mem_dropDupTractsAux :
    ∀ (l : List TractRow) (seen : List GVal) (t : TractRow),
      t ∈ dropDupTractsAux seen l → t ∈ l ∧ t.geoid ∉ seen := by
  intro l
  induction l with
  | nil => intro seen t h; simp [dropDupTractsAux] at h
  | cons u rest ih =>
    intro seen t h
    by_cases hu : u.geoid ∈ seen
    · rw [dropDupTractsAux, if_pos hu] at h
      obtain ⟨h1, h2⟩ := ih seen t h
      exact ⟨List.mem_cons_of_mem u h1, h2⟩
    · rw [dropDupTractsAux, if_neg hu] at h
      rcases List.mem_cons.mp h with h | h
      · exact ⟨h ▸ List.mem_cons_self u rest, h ▸ hu⟩
      · obtain ⟨h1, h2⟩ := ih (u.geoid :: seen) t h
        exact ⟨List.mem_cons_of_mem u h1,
          fun hc => h2 (List.mem_cons_of_mem u.geoid hc)⟩

theorem nodup_dropDupTracts_keys :
    ∀ (l : List TractRow) (seen : List GVal),
      ((dropDupTractsAux seen l).map TractRow.geoid).Nodup := by
  intro l
  induction l with
  | nil => intro seen; simp [dropDupTractsAux]
  | cons u rest ih =>
    intro seen
    by_cases hu : u.geoid ∈ seen
    · rw [dropDupTractsAux, if_pos hu]
      exact ih seen
    · rw [dropDupTractsAux, if_neg hu]
      rw [List.map_cons]
      refine List.nodup_cons.mpr ⟨fun hc => ?_, ih (u.geoid :: seen)⟩
      obtain ⟨v, hv, hveq⟩ := List.mem_map.mp hc
      have := (mem_dropDupTractsAux rest (u.geoid :: seen) v hv).2
      exact this (hveq ▸ List.mem_cons_self u.geoid seen)

theorem ite_merge_length_ge {beta : Type} (b : Bool) (key : beta → GVal)
    (comb : MRow → beta → MRow) (m : List MRow) (right : List beta) :
    m.length ≤ (if b then m else leftMergeBy key comb m right).length := by
  cases b
  · simpa using leftMergeBy_length_ge key comb right m
  · simp

theorem ite_merge_length_eq {beta : Type} (b : Bool) (key : beta → GVal)
    (comb : MRow → beta → MRow) (m : List MRow) (right : List beta)
    (hnd : (right.map key).Nodup) :
    (if b then m else leftMergeBy key comb m right).length = m.length := by
  cases b
  · simpa using leftMergeBy_length_eq key comb right hnd m
  · simp

/-- Claim C4.  The left-joins of `merge_layers` never drop anchor rows;
and when the environmental and infrastructure tables carry at most one row
per (string-coerced) identifier and the geometry source's identifiers do
not collide under string coercion, the master table has exactly as many
rows as the demographic anchor — the tract-area rows are de-duplicated by
identifier inside the function, so the geometry source needs no
duplicate-freeness of its own. -/
theorem c4_merge_preserves_anchor_rows (acs : List AcsRow) (ces : List CesRow)
    (bike : List BikeRow) (tracts : Option (List TractRow)) :
    acs.length ≤ (merge_layers acs ces bike tracts).1.length
    ∧ ((ces.map (fun c => pyStr c.geoid)).Nodup →
      (bike.map (fun b => pyStr b.geoid)).Nodup →
      (∀ ts, tracts = some ts → ∀ t ∈ ts, ∀ u ∈ ts,
        pyStr t.geoid = pyStr u.geoid → t.geoid = u.geoid) →
      (merge_layers acs ces bike tracts).1.length = acs.length) := by
  constructor
  · rcases tracts with _ | ts
    · simp only [merge_layers, List.length_map]
      refine le_trans (le_trans ?_ (ite_merge_length_ge _ _ _ _ _))
        (ite_merge_length_ge _ _ _ _ _)
      simp
    · simp only [merge_layers, List.length_map]
      refine le_trans (le_trans (le_trans ?_ (ite_merge_length_ge _ _ _ _ _))
        (ite_merge_length_ge _ _ _ _ _)) (ite_merge_length_ge _ _ _ _ _)
      simp
  · intro hces hbike htr
    have hndc : ((ces.map coerceGeoidCes).map CesRow.geoid).Nodup := by
      have he : (ces.map coerceGeoidCes).map CesRow.geoid
          = ces.map (fun c => pyStr c.geoid) := by
        rw [List.map_map]
        rfl
      rw [he]
      exact hces
    have hndb : ((bike.map coerceGeoidBike).map BikeRow.geoid).Nodup := by
      have he : (bike.map coerceGeoidBike).map BikeRow.geoid
          = bike.map (fun b => pyStr b.geoid) := by
        rw [List.map_map]
        rfl
      rw [he]
      exact hbike
    rcases tracts with _ | ts
    · simp only [merge_layers, List.length_map]
      rw [ite_merge_length_eq _ _ _ _ _ hndb, ite_merge_length_eq _ _ _ _ _ hndc]
      simp
    · have hrawkeys := nodup_dropDupTracts_keys ts []
      have hrows : (dropDupTracts ts).Nodup := List.Nodup.of_map _ hrawkeys
      have hndt : (((dropDupTracts ts).map
          (fun (t : TractRow) => { t with geoid := pyStr t.geoid })).map
            TractRow.geoid).Nodup := by
        have he : ((dropDupTracts ts).map
            (fun (t : TractRow) => { t with geoid := pyStr t.geoid })).map
              TractRow.geoid
            = (dropDupTracts ts).map (fun t => pyStr t.geoid) := by
          rw [List.map_map]
          rfl
        rw [he]
        refine List.Nodup.map_on ?_ hrows
        intro x hx y hy hpy
        have hxs := (mem_dropDupTractsAux ts [] x hx).1
        have hys := (mem_dropDupTractsAux ts [] y hy).1
        have hgeq : x.geoid = y.geoid := htr ts rfl x hxs y hys hpy
        exact List.inj_on_of_nodup_map hrawkeys hx hy hgeq
      simp only [merge_layers, List.length_map]
      rw [ite_merge_length_eq _ _ _ _ _ hndt, ite_merge_length_eq _ _ _ _ _ hndb,
        ite_merge_length_eq _ _ _ _ _ hndc]
      simp

/-- Claim C4, counterexample.  A duplicate-keyed environmental table fans
the single anchor row out to two rows: the left-join does duplicate anchor
rows when a right table repeats an identifier. -/
theorem c4_merge_fanout_counterexample :
    ([(⟨GVal.s ['g'], none, none, none, none⟩ : AcsRow)]).length = 1
    ∧ (merge_layers [⟨GVal.s ['g'], none, none, none, none⟩]
        [⟨GVal.s ['g'], some 1, none⟩, ⟨GVal.s ['g'], some 2, none⟩]
        [] none).1.length = 2 := by
  constructor
  · rfl
  · rfl

/-- Closed witness for claim C4: unique-keyed environmental and
infrastructure tables and a duplicated tract-area table preserve the
two-row anchor exactly. -/
theorem c4_merge_preserves_witness :
    (([(⟨GVal.s ['g'], some 1, none⟩ : CesRow)]).map
        (fun c => pyStr c.geoid)).Nodup
    ∧ (([(⟨GVal.s ['g'], some 3⟩ : BikeRow)]).map
        (fun b => pyStr b.geoid)).Nodup
    ∧ (∀ ts, (some [(⟨GVal.s ['g'], some 1⟩ : TractRow), ⟨GVal.s ['g'], some 1⟩]
          : Option (List TractRow)) = some ts →
        ∀ t ∈ ts, ∀ u ∈ ts, pyStr t.geoid = pyStr u.geoid → t.geoid = u.geoid)
    ∧ (merge_layers
        [⟨GVal.s ['g'], none, none, none, none⟩, ⟨GVal.s ['h'], none, none, none, none⟩]
        [⟨GVal.s ['g'], some 1, none⟩] [⟨GVal.s ['g'], some 3⟩]
        (some [⟨GVal.s ['g'], some 1⟩, ⟨GVal.s ['g'], some 1⟩])).1.length
      = ([(⟨GVal.s ['g'], none, none, none, none⟩ : AcsRow),
          ⟨GVal.s ['h'], none, none, none, none⟩]).length := by
  refine ⟨by decide, by decide, ?_, ?_⟩
  · intro ts hts t ht u hu hpy
    cases hts
    fin_cases ht <;> fin_cases hu <;> rfl
  · exact (c4_merge_preserves_anchor_rows _ _ _ _).2 (by decide) (by decide)
      (by
        intro ts hts t ht u hu hpy
        cases hts
        fin_cases ht <;> fin_cases hu <;> rfl)

/-- Claim C10.  `merge_layers` copies its demographic argument and never
modifies it, while a nonempty environmental or infrastructure argument
receives the in-place string coercion of its identifier column (an empty
one is untouched); in particular a numerically keyed environmental table
is not left unchanged by the merge. -/
theorem c10_merge_layers_frame_effects (acs : List AcsRow) (ces : List CesRow)
    (bike : List BikeRow) (tracts : Option (List TractRow)) :
    (merge_layers acs ces bike tracts).2.1 = acs
    ∧ (ces ≠ [] →
      (merge_layers acs ces bike tracts).2.2.1 = ces.map coerceGeoidCes)
    ∧ (ces = [] → (merge_layers acs ces bike tracts).2.2.1 = ces)
    ∧ (bike ≠ [] →
      (merge_layers acs ces bike tracts).2.2.2 = bike.map coerceGeoidBike)
    ∧ (bike = [] → (merge_layers acs ces bike tracts).2.2.2 = bike)
    ∧ (merge_layers ([] : List AcsRow) [⟨GVal.num 12, none, none⟩] [] none).2.2.1
        ≠ [⟨GVal.num 12, none, none⟩] := by
  refine ⟨rfl, ?_, ?_, ?_, ?_, ?_⟩
  · intro h
    have hne : ces.isEmpty = false := by
      simp [List.isEmpty_iff, h]
    simp [merge_layers, hne]
  · intro h
    subst h
    rfl
  · intro h
    have hne : bike.isEmpty = false := by
      simp [List.isEmpty_iff, h]
    simp [merge_layers, hne]
  · intro h
    subst h
    rfl
  · decide

/-- Closed witness for claim C10: nonempty numerically keyed tables are
coerced in place, the anchor is untouched. -/
theorem c10_merge_layers_witness :
    (([(⟨GVal.num 12, some 1, none⟩ : CesRow)] : List CesRow) ≠ [])
    ∧ (([(⟨GVal.num 7, some 2⟩ : BikeRow)] : List BikeRow) ≠ [])
    ∧ (merge_layers [⟨GVal.s ['1', '2'], none, none, none, none⟩]
        [⟨GVal.num 12, some 1, none⟩] [⟨GVal.num 7, some 2⟩] none).2.1
      = [⟨GVal.s ['1', '2'], none, none, none, none⟩]
    ∧ (merge_layers [⟨GVal.s ['1', '2'], none, none, none, none⟩]
        [⟨GVal.num 12, some 1, none⟩] [⟨GVal.num 7, some 2⟩] none).2.2.1
      = [⟨GVal.num 12, some 1, none⟩].map coerceGeoidCes
    ∧ (merge_layers [⟨GVal.s ['1', '2'], none, none, none, none⟩]
        [⟨GVal.num 12, some 1, none⟩] [⟨GVal.num 7, some 2⟩] none).2.2.2
      = [⟨GVal.num 7, some 2⟩].map coerceGeoidBike := by
  refine ⟨by decide, by decide, ?_, ?_, ?_⟩
  · exact (c10_merge_layers_frame_effects _ _ _ _).1
  · exact (c10_merge_layers_frame_effects _ _ _ _).2.1 (by decide)
  · exact (c10_merge_layers_frame_effects _ _ _ _).2.2.2.1 (by decide)

theorem optDiv_none_right (x : Option ℚ) : optDiv x none = none := by
  cases x <;> rfl

/-- Claim C5.  Each division-derived field — the vehicle-less rate, the
per-capita miles and the area density — is the explicit missing value
(`none`, never zero, never infinite, and the functions are total so no
exception is possible) on every row whose denominator is zero or
missing. -/
theorem c5_division_denominator_safety (df : List MRow) (r : MRow) :
    (r ∈ add_vehicle_rate df → (r.population = some 0 ∨ r.population = none) →
      r.vehicle_rate = none)
    ∧ (r ∈ add_bikeway_per_capita df →
      (r.population = some 0 ∨ r.population = none) →
      r.bikeway_miles_per_1000 = none)
    ∧ (r ∈ add_bike_lane_area_density df →
      (r.tract_area_sq_mi = some 0 ∨ r.tract_area_sq_mi = none) →
      r.bike_lane_density_sq_mi = none) := by
  refine ⟨?_, ?_, ?_⟩
  · intro hr hz
    obtain ⟨r0, _, rfl⟩ := List.mem_map.mp hr
    have hz0 : replaceZero r0.population = none := by
      rcases hz with h | h <;> rw [h] <;> simp [replaceZero]
    simp only [add_vehicle_rate]
    rw [hz0, optDiv_none_right]
  · intro hr hz
    obtain ⟨r0, _, rfl⟩ := List.mem_map.mp hr
    have hz0 : replaceZero r0.population = none := by
      rcases hz with h | h <;> rw [h] <;> simp [replaceZero]
    simp only [add_bikeway_per_capita]
    rw [hz0, optDiv_none_right]
    rfl
  · intro hr hz
    obtain ⟨r0, _, rfl⟩ := List.mem_map.mp hr
    have hz0 : replaceZero r0.tract_area_sq_mi = none := by
      rcases hz with h | h <;> rw [h] <;> simp [replaceZero]
    simp only [add_bike_lane_area_density]
    rw [hz0, optDiv_none_right]

/-- Closed witness for claim C5, on rows with zero and with missing
denominators. -/
theorem c5_division_safety_witness :
    ((⟨GVal.s ['g'], none, some 0, some 1, none, none, none, some 2, some 0, none,
        none, none⟩ : MRow)
      ∈ add_vehicle_rate [⟨GVal.s ['g'], none, some 0, some 1, none, none, none,
        some 2, some 0, none, none, none⟩]
    → ((⟨GVal.s ['g'], none, some 0, some 1, none, none, none, some 2, some 0, none,
        none, none⟩ : MRow).population = some 0
      ∨ (⟨GVal.s ['g'], none, some 0, some 1, none, none, none, some 2, some 0, none,
        none, none⟩ : MRow).population = none)
    → (⟨GVal.s ['g'], none, some 0, some 1, none, none, none, some 2, some 0, none,
        none, none⟩ : MRow).vehicle_rate = none)
    ∧ (⟨GVal.s ['g'], none, some 0, some 1, none, none, none, some 2, some 0, none,
        none, none⟩ : MRow)
        ∈ add_vehicle_rate [⟨GVal.s ['g'], none, some 0, some 1, none, none, none,
          some 2, some 0, none, none, none⟩]
    ∧ (⟨GVal.s ['g'], none, some 0, some 1, none, none, none, some 2, some 0, none,
        none, none⟩ : MRow).vehicle_rate = none := by
  refine ⟨(c5_division_denominator_safety _ _).1, ?_, rfl⟩
  decide

/-! ### Analysis (`analyze.py`)

`run_ols` and `add_clusters` select columns of the master table, drop
incomplete rows and check the 20-row minimum.  The statsmodels OLS fit and
the `StandardScaler`-plus-`KMeans` call are external library routines:
they enter as explicit function parameters (`fitter` returns the fitted
model or `none` for the `except` path; `labeler` returns one raw cluster
label per fitted row, the library's shape guarantee).  The columns are
already numeric in the typed model, so `pd.to_numeric(errors='coerce')` is
the identity.  Diagnostic `print` calls are returned as a list of
diagnostics. -/

/-- A selectable numeric column of the master table. -/
inductive MCol where
  | median_income
  | population
  | households_no_vehicle
  | total_households
  | ces_score
  | pm25
  | bikeway_miles
  | tract_area_sq_mi
  | vehicle_rate
  | bikeway_miles_per_1000
  | bike_lane_density_sq_mi
deriving DecidableEq

def getCol : MCol → MRow → Option ℚ
  | .median_income, r => r.median_income
  | .population, r => r.population
  | .households_no_vehicle, r => r.households_no_vehicle
  | .total_households, r => r.total_households
  | .ces_score, r => r.ces_score
  | .pm25, r => r.pm25
  | .bikeway_miles, r => r.bikeway_miles
  | .tract_area_sq_mi, r => r.tract_area_sq_mi
  | .vehicle_rate, r => r.vehicle_rate
  | .bikeway_miles_per_1000, r => r.bikeway_miles_per_1000
  | .bike_lane_density_sq_mi, r => r.bike_lane_density_sq_mi

/-- `dropna(subset=cols)` keeps the rows complete on all selected columns. -/
def rowComplete (cols : List MCol) (r : MRow) : Bool :=
  cols.all (fun c => (getCol c r).isSome)

/-- The diagnostic messages printed by the analysis functions. -/
inductive Diag where
  | notEnoughRegression (n : Nat)
  | notEnoughCluster
deriving DecidableEq

/-- `run_ols` (`analyze.py` 41-70): coerce and drop incomplete rows over
the dependent and independent columns; below 20 complete rows print a
diagnostic and return no model, otherwise fit (the `fitter` parameter,
whose `none` result is the caught-exception path of `analyze.py` 68-70). -/
def run_ols (fitter : List MRow → Option (List MRow)) (df : List MRow)
    (y : MCol) (x : List MCol) : Option (List MRow) × List Diag :=
  let d := df.filter (fun r => rowComplete (y :: x) r)
  if d.length < 20 then (none, [Diag.notEnoughRegression d.length])
  else (fitter d, [])

/-- `fit_data = d.dropna(subset=cols)` (`analyze.py` 89). -/
def fitRows (df : List MRow) (cols : List MCol) : List MRow :=
  df.filter (fun r => rowComplete cols r)

/-- `sort_col = 'ces_score' if 'ces_score' in cols else cols[0]`
(`analyze.py` 107); `cols` is nonempty at every call site. -/
def sortCol (cols : List MCol) : MCol :=
  if MCol.ces_score ∈ cols then MCol.ces_score else cols.headD MCol.ces_score

/-- First-occurrence de-duplication of raw cluster labels (the distinct
`groupby` keys; key order only affects tie-breaking among equal means). -/
def dropDupNatAux (seen : List Nat) : List Nat → List Nat
  | [] => []
  | n :: rest =>
    if n ∈ seen then dropDupNatAux seen rest else n :: dropDupNatAux (n :: seen) rest

def dropDupNat (l : List Nat) : List Nat := dropDupNatAux [] l

/-- Pandas `mean()` of a list of values. -/
def listMean (l : List ℚ) : ℚ := l.sum / l.length

/-- `fit_data.groupby('temp_label')[sort_col].mean()` (`analyze.py` 111):
the mean of the sort column per distinct raw label (fitted rows are
complete, so no value is skipped). -/
def groupMeans (fitL : List (MRow × Nat)) (sc : MCol) : List (Nat × ℚ) :=
  (dropDupNat (fitL.map Prod.snd)).map (fun lbl =>
    (lbl, listMean ((fitL.filter (fun p => p.2 = lbl)).map
      (fun p => (getCol sc p.1).getD 0))))

/-- `.sort_values(ascending=False)` (`analyze.py` 111): descending by mean. -/
def sortMeansDesc (ms : List (Nat × ℚ)) : List (Nat × ℚ) :=
  ms.mergeSort (fun p q => decide (q.2 ≤ p.2))

/-- `mapping = {old: new for new, old in enumerate(means.index)}`
(`analyze.py` 115): the rank of a raw label is its position in the
descending-mean order. -/
def rankOf (sorted : List (Nat × ℚ)) (lbl : Nat) : Nat :=
  (sorted.map Prod.fst).indexOf lbl

/-- `fit_data[["GEOID", "cluster"]]` (`analyze.py` 118-121): each fitted
row's identifier with its re-ranked label. -/
def clusterAssignments (fitL : List (MRow × Nat)) (sc : MCol) : List (GVal × Nat) :=
  fitL.map (fun p => (p.1.geoid, rankOf (sortMeansDesc (groupMeans fitL sc)) p.2))

/-- `df.merge(fit_data[["GEOID", "cluster"]], on="GEOID", how="left")`
(`analyze.py` 121). -/
def mergeClusters (df : List MRow) (assign : List (GVal × Nat)) :
    List (MRow × Option Nat) :=
  df.flatMap (fun r =>
    match assign.filter (fun a => a.1 = r.geoid) with
    | [] => [(r, none)]
    | ms => ms.map (fun a => (r, some a.2)))

/-- `add_clusters` (`analyze.py` 72-121): below 20 complete rows print a
diagnostic and return the input unchanged (no label assigned); otherwise
scale and cluster (the `labeler` parameter), re-rank labels by descending
mean of the sort column and merge the labels back onto all rows. -/
def add_clusters (labeler : List MRow → Nat → List Nat) (df : List MRow)
    (cols : List MCol) (k : Nat) : List (MRow × Option Nat) × List Diag :=
  let fit := fitRows df cols
  if fit.length < 20 then (df.map (fun r => (r, none)), [Diag.notEnoughCluster])
  else
    let fitL := fit.zip (labeler fit k)
    (mergeClusters df (clusterAssignments fitL (sortCol cols)), [])

theorem map_fst_pairG {alpha beta : Type} (l : List alpha) (f : alpha → beta) :
    (l.map (fun x => (x, f x))).map Prod.fst = l := by
  induction l with
  | nil => rfl
  | cons x xs ih => simp [ih]

/-- With duplicate-free assignment keys, the cluster left-merge is a map:
each row picks up the unique matching label, or none. -/
theorem mergeClusters_eq_map (assign : List (GVal × Nat))
    (hnd : (assign.map Prod.fst).Nodup) :
    ∀ df : List MRow, mergeClusters df assign
      = df.map (fun r =>
          (r, ((assign.filter (fun a => a.1 = r.geoid)).head?).map Prod.snd)) := by
  intro df
  induction df with
  | nil => rfl
  | cons r rest ih =>
    simp only [mergeClusters, List.flatMap_cons, List.map_cons]
    simp only [mergeClusters] at ih
    rw [ih]
    have hle := filter_key_length_le_one Prod.fst r.geoid assign hnd
    rcases h : assign.filter (fun a => a.1 = r.geoid) with _ | ⟨a, as⟩
    · simp only [h]
      simp
    · have hlen : (a :: as).length ≤ 1 := by
        rw [← h]
        simpa using hle
      simp only [List.length_cons] at hlen
      have has : as = [] := List.length_eq_zero.mp (by omega)
      subst has
      simp only [h]
      simp

/-- The assignment keys are the fitted rows' identifiers. -/
theorem clusterAssignments_keys (fitL : List (MRow × Nat)) (sc : MCol) :
    (clusterAssignments fitL sc).map Prod.fst
      = (fitL.map Prod.fst).map MRow.geoid := by
  simp only [clusterAssignments, List.map_map]
  rfl

theorem fitRows_geoid_nodup (df : List MRow) (cols : List MCol)
    (hnd : (df.map MRow.geoid).Nodup) :
    ((fitRows df cols).map MRow.geoid).Nodup :=
  List.Nodup.sublist (List.Sublist.map MRow.geoid (List.filter_sublist df)) hnd

/-- Claim C9.  Below 20 complete rows the regression returns no model and
the clustering returns its input rows unchanged with no label assigned,
each emitting a diagnostic; with 20 or more complete rows the regression
invokes the fit on the cleaned rows with no diagnostic, and the clustering
proceeds, emitting no diagnostic and returning exactly the input rows
(with labels attached). -/
theorem c9_minimum_row_thresholds (fitter : List MRow → Option (List MRow))
    (labeler : List MRow → Nat → List Nat) (df : List MRow) (y : MCol)
    (x : List MCol) (cols : List MCol) (k : Nat)
    (hnd : (df.map MRow.geoid).Nodup)
    (hlab : (labeler (fitRows df cols) k).length = (fitRows df cols).length) :
    ((df.filter (fun r => rowComplete (y :: x) r)).length < 20 →
      (run_ols fitter df y x).1 = none ∧ (run_ols fitter df y x).2 ≠ [])
    ∧ (20 ≤ (df.filter (fun r => rowComplete (y :: x) r)).length →
      (run_ols fitter df y x).1
          = fitter (df.filter (fun r => rowComplete (y :: x) r))
        ∧ (run_ols fitter df y x).2 = [])
    ∧ ((fitRows df cols).length < 20 →
      (add_clusters labeler df cols k).1 = df.map (fun r => (r, none))
        ∧ (add_clusters labeler df cols k).2 ≠ [])
    ∧ (20 ≤ (fitRows df cols).length →
      (add_clusters labeler df cols k).2 = []
        ∧ (add_clusters labeler df cols k).1.map Prod.fst = df) := by
  have hkeys : ((clusterAssignments
      ((fitRows df cols).zip (labeler (fitRows df cols) k))
      (sortCol cols)).map Prod.fst).Nodup := by
    rw [clusterAssignments_keys, List.map_fst_zip _ _ (le_of_eq hlab.symm)]
    exact fitRows_geoid_nodup df cols hnd
  refine ⟨?_, ?_, ?_, ?_⟩
  · intro h
    simp only [run_ols]
    rw [if_pos h]
    exact ⟨rfl, by simp⟩
  · intro h
    simp only [run_ols]
    rw [if_neg (not_lt.mpr h)]
    exact ⟨rfl, rfl⟩
  · intro h
    simp only [add_clusters, fitRows] at h ⊢
    rw [if_pos h]
    exact ⟨rfl, by simp⟩
  · intro h
    simp only [add_clusters, fitRows] at h ⊢
    rw [if_neg (not_lt.mpr h)]
    refine ⟨rfl, ?_⟩
    rw [mergeClusters_eq_map _ (by simpa [fitRows] using hkeys) df]
    exact map_fst_pairG df _

theorem mem_dropDupNatAux (x : Nat) :
    ∀ (l : List Nat) (seen : List Nat),
      x ∈ dropDupNatAux seen l ↔ x ∈ l ∧ x ∉ seen := by
  intro l
  induction l with
  | nil => intro seen; simp [dropDupNatAux]
  | cons n rest ih =>
    intro seen
    by_cases hn : n ∈ seen
    · rw [dropDupNatAux, if_pos hn, ih]
      constructor
      · rintro ⟨h1, h2⟩
        exact ⟨List.mem_cons_of_mem n h1, h2⟩
      · rintro ⟨h1, h2⟩
        rcases List.mem_cons.mp h1 with h | h
        · exact absurd (h ▸ hn) h2
        · exact ⟨h, h2⟩
    · rw [dropDupNatAux, if_neg hn, List.mem_cons, ih]
      constructor
      · rintro (h | ⟨h1, h2⟩)
        · exact ⟨List.mem_cons.mpr (Or.inl h), h ▸ hn⟩
        · exact ⟨List.mem_cons_of_mem n h1,
            fun hc => h2 (List.mem_cons_of_mem n hc)⟩
      · rintro ⟨h1, h2⟩
        rcases List.mem_cons.mp h1 with h | h
        · exact Or.inl h
        · by_cases hx : x = n
          · exact Or.inl hx
          · refine Or.inr ⟨h, fun hc => ?_⟩
            rcases List.mem_cons.mp hc with h' | h'
            · exact hx h'
            · exact h2 h'

theorem mem_dropDupNat (x : Nat) (l : List Nat) : x ∈ dropDupNat l ↔ x ∈ l := by
  rw [dropDupNat, mem_dropDupNatAux]
  simp

theorem nodup_dropDupNatAux :
    ∀ (l : List Nat) (seen : List Nat), (dropDupNatAux seen l).Nodup := by
  intro l
  induction l with
  | nil => intro seen; simp [dropDupNatAux]
  | cons n rest ih =>
    intro seen
    by_cases hn : n ∈ seen
    · rw [dropDupNatAux, if_pos hn]
      exact ih seen
    · rw [dropDupNatAux, if_neg hn]
      refine List.nodup_cons.mpr ⟨fun hc => ?_, ih (n :: seen)⟩
      exact ((mem_dropDupNatAux n rest (n :: seen)).mp hc).2 (List.mem_cons_self n seen)

theorem nodup_dropDupNat (l : List Nat) : (dropDupNat l).Nodup :=
  nodup_dropDupNatAux l []

theorem listMean_perm {l1 l2 : List ℚ} (h : l1.Perm l2) : listMean l1 = listMean l2 := by
  rw [listMean, listMean, h.sum_eq, h.length_eq]

theorem groupMeans_keys (fitL : List (MRow × Nat)) (sc : MCol) :
    (groupMeans fitL sc).map Prod.fst = dropDupNat (fitL.map Prod.snd) :=
  map_fst_pairG _ _

theorem groupMeans_val {fitL : List (MRow × Nat)} {sc : MCol} {pr : Nat × ℚ}
    (h : pr ∈ groupMeans fitL sc) :
    pr.2 = listMean ((fitL.filter (fun p => p.2 = pr.1)).map
      (fun p => (getCol sc p.1).getD 0)) := by
  obtain ⟨lbl, _, rfl⟩ := List.mem_map.mp h
  rfl

theorem sortMeansDesc_perm (ms : List (Nat × ℚ)) : (sortMeansDesc ms).Perm ms :=
  List.mergeSort_perm ms _

theorem sortMeansDesc_sorted (ms : List (Nat × ℚ)) :
    (sortMeansDesc ms).Pairwise (fun p q : Nat × ℚ => q.2 ≤ p.2) := by
  have htrans : ∀ a b c : Nat × ℚ, (fun p q : Nat × ℚ => decide (q.2 ≤ p.2)) a b →
      (fun p q : Nat × ℚ => decide (q.2 ≤ p.2)) b c →
      (fun p q : Nat × ℚ => decide (q.2 ≤ p.2)) a c := by
    intro a b c h1 h2
    simp only [decide_eq_true_eq] at h1 h2 ⊢
    exact le_trans h2 h1
  have htotal : ∀ a b : Nat × ℚ, ((fun p q : Nat × ℚ => decide (q.2 ≤ p.2)) a b
      || (fun p q : Nat × ℚ => decide (q.2 ≤ p.2)) b a) = true := by
    intro a b
    simp only [Bool.or_eq_true, decide_eq_true_eq]
    exact le_total b.2 a.2
  have h := List.sorted_mergeSort htrans htotal ms
  rw [sortMeansDesc]
  exact h.imp (fun hab => by simpa using hab)

theorem sortCol_of_mem {cols : List MCol} (h : MCol.ces_score ∈ cols) :
    sortCol cols = MCol.ces_score := by
  rw [sortCol, if_pos h]

/-- The rows of a clustered table carrying a given cluster label. -/
def clusterRows (res : List (MRow × Option Nat)) (j : Nat) : List (MRow × Option Nat) :=
  res.filter (fun p => p.2 = some j)

/-- The environmental-burden scores of the given clustered rows. -/
def cesOf (rows : List (MRow × Option Nat)) : List ℚ :=
  rows.map (fun p => (p.1.ces_score).getD 0)

/-- The label the left-merge attaches to one identifier. -/
def lookupLabel (assign : List (GVal × Nat)) (g : GVal) : Option Nat :=
  ((assign.filter (fun a => a.1 = g)).head?).map Prod.snd

theorem mergeClusters_eq_map_lookup (assign : List (GVal × Nat))
    (hnd : (assign.map Prod.fst).Nodup) (df : List MRow) :
    mergeClusters df assign = df.map (fun r => (r, lookupLabel assign r.geoid)) :=
  mergeClusters_eq_map assign hnd df

theorem lookupLabel_eq_some {assign : List (GVal × Nat)}
    (hnd : (assign.map Prod.fst).Nodup) (g : GVal) (j : Nat) :
    lookupLabel assign g = some j ↔ (g, j) ∈ assign := by
  constructor
  · intro h
    rw [lookupLabel] at h
    obtain ⟨a, ha, ha2⟩ := Option.map_eq_some'.mp h
    have hamem : a ∈ assign.filter (fun a => a.1 = g) := List.mem_of_mem_head? ha
    obtain ⟨hass, hkey⟩ := List.mem_filter.mp hamem
    have hkey' : a.1 = g := of_decide_eq_true hkey
    have : a = (g, j) := Prod.ext hkey' ha2
    exact this ▸ hass
  · intro h
    have hmemf : (g, j) ∈ assign.filter (fun a => a.1 = g) :=
      List.mem_filter.mpr ⟨h, by simp⟩
    rw [lookupLabel]
    rcases hf : assign.filter (fun a => a.1 = g) with _ | ⟨a, as⟩
    · rw [hf] at hmemf
      exact absurd hmemf (by simp)
    · have hamem : a ∈ assign.filter (fun a => a.1 = g) := by
        rw [hf]
        exact List.mem_cons_self a as
      obtain ⟨hass, hkey⟩ := List.mem_filter.mp hamem
      have : a = (g, j) := List.inj_on_of_nodup_map hnd hass h
        (of_decide_eq_true hkey)
      rw [hf, this]
      rfl

theorem indexOf_eq_iff_nat {ls : List Nat} (hnd : ls.Nodup) {j : Nat}
    (hj : j < ls.length) {lbl : Nat} (hmem : lbl ∈ ls) :
    ls.indexOf lbl = j ↔ lbl = ls.get ⟨j, hj⟩ := by
  constructor
  · intro h
    subst h
    exact (List.indexOf_get hj).symm
  · intro h
    have hlt : ls.indexOf lbl < ls.length := List.indexOf_lt_length.mpr hmem
    have h1 : ls.get ⟨ls.indexOf lbl, hlt⟩ = ls.get ⟨j, hj⟩ := by
      rw [List.indexOf_get hlt]
      exact h
    have h2 := (List.Nodup.get_inj_iff hnd).mp h1
    exact congrArg Fin.val h2

theorem get_map_fst {l : List (Nat × ℚ)} {j : Nat} (hj : j < l.length)
    (hj' : j < (l.map Prod.fst).length) :
    (l.map Prod.fst).get ⟨j, hj'⟩ = (l.get ⟨j, hj⟩).1 := by
  simp [List.get_eq_getElem, List.getElem_map]

theorem sorted_head_dominates {ms : List (Nat × ℚ)} {j : Nat}
    (hj : j < (sortMeansDesc ms).length) (h0 : 0 < (sortMeansDesc ms).length) :
    ((sortMeansDesc ms).get ⟨j, hj⟩).2 ≤ ((sortMeansDesc ms).get ⟨0, h0⟩).2 := by
  rcases Nat.eq_zero_or_pos j with h | h
  · subst h
    exact le_refl _
  · exact List.pairwise_iff_get.mp (sortMeansDesc_sorted ms) ⟨0, h0⟩ ⟨j, hj⟩ h

/-- Core re-ranking property of the cluster merge.  Under duplicate-free
row identifiers, fitted rows drawn from the table, and one raw label per
fitted row, every nonempty cluster of the merged result has its mean sort
value bounded by the mean of cluster `0`, and cluster `0` is nonempty. -/
theorem cluster_rank_mean_core (df : List MRow) (fL : List (MRow × Nat)) (sc : MCol)
    (sorted : List (Nat × ℚ)) (ls : List Nat) (assign : List (GVal × Nat))
    (hsorted : sorted = sortMeansDesc (groupMeans fL sc))
    (hls : ls = sorted.map Prod.fst)
    (hassign : assign = clusterAssignments fL sc)
    (hnd : (df.map MRow.geoid).Nodup)
    (hsub : ∀ p ∈ fL, p.1 ∈ df)
    (hfstnd : (fL.map Prod.fst).Nodup)
    (hne : fL ≠ []) :
    clusterRows (mergeClusters df assign) 0 ≠ []
    ∧ ∀ j, clusterRows (mergeClusters df assign) j ≠ [] →
        listMean ((clusterRows (mergeClusters df assign) j).map
            (fun p => (getCol sc p.1).getD 0))
          ≤ listMean ((clusterRows (mergeClusters df assign) 0).map
            (fun p => (getCol sc p.1).getD 0)) := by
  have hrank_fold : ∀ lbl : Nat, rankOf sorted lbl = ls.indexOf lbl := by
    intro lbl
    rw [rankOf, hls]
  have hlsnodup : ls.Nodup := by
    rw [hls, hsorted]
    have hperm := (sortMeansDesc_perm (groupMeans fL sc)).map Prod.fst
    rw [groupMeans_keys] at hperm
    exact hperm.nodup_iff.mpr (nodup_dropDupNat _)
  have hlblmem : ∀ p ∈ fL, p.2 ∈ ls := by
    intro p hp
    rw [hls, hsorted]
    have h1 : p.2 ∈ dropDupNat (fL.map Prod.snd) :=
      (mem_dropDupNat _ _).mpr (List.mem_map.mpr ⟨p, hp, rfl⟩)
    have hperm := (sortMeansDesc_perm (groupMeans fL sc)).map Prod.fst
    rw [groupMeans_keys] at hperm
    exact hperm.mem_iff.mpr h1
  have hkeys : (assign.map Prod.fst).Nodup := by
    rw [hassign, clusterAssignments_keys]
    refine List.Nodup.map_on ?_ hfstnd
    intro x hx y hy hxy
    obtain ⟨px, hpx, rfl⟩ := List.mem_map.mp hx
    obtain ⟨py, hpy, rfl⟩ := List.mem_map.mp hy
    exact List.inj_on_of_nodup_map hnd (hsub px hpx) (hsub py hpy) hxy
  have hmemassign : ∀ g j, (g, j) ∈ assign
      ↔ ∃ p ∈ fL, p.1.geoid = g ∧ rankOf sorted p.2 = j := by
    intro g j
    rw [hassign, clusterAssignments, ← hsorted]
    constructor
    · intro h
      obtain ⟨p, hp, heq⟩ := List.mem_map.mp h
      obtain ⟨h1, h2⟩ := Prod.mk.injEq _ _ _ _ ▸ heq
      exact ⟨p, hp, h1, h2⟩
    · rintro ⟨p, hp, h1, h2⟩
      exact List.mem_map.mpr ⟨p, hp, by rw [h1, h2]⟩
  have hres : mergeClusters df assign
      = df.map (fun r => (r, lookupLabel assign r.geoid)) :=
    mergeClusters_eq_map_lookup assign hkeys df
  have hcr : ∀ j, clusterRows (mergeClusters df assign) j
      = (df.filter (fun r => decide (lookupLabel assign r.geoid = some j))).map
          (fun r => (r, lookupLabel assign r.geoid)) := by
    intro j
    rw [hres, clusterRows, List.filter_map]
    rfl
  have hval : ∀ j, (clusterRows (mergeClusters df assign) j).map
        (fun p => (getCol sc p.1).getD 0)
      = (df.filter (fun r => decide (lookupLabel assign r.geoid = some j))).map
          (fun r => (getCol sc r).getD 0) := by
    intro j
    rw [hcr j, List.map_map]
    rfl
  have hdfnodup : df.Nodup := List.Nodup.of_map _ hnd
  have hperm : ∀ j, (df.filter
        (fun r => decide (lookupLabel assign r.geoid = some j))).Perm
      ((fL.filter (fun p => decide (rankOf sorted p.2 = j))).map Prod.fst) := by
    intro j
    refine (List.perm_ext_iff_of_nodup (List.Nodup.filter _ hdfnodup)
      (List.Nodup.sublist (List.Sublist.map Prod.fst (List.filter_sublist fL))
        hfstnd)).mpr ?_
    intro r
    rw [List.mem_filter]
    constructor
    · rintro ⟨hrdf, hcond⟩
      have h1 : lookupLabel assign r.geoid = some j := of_decide_eq_true hcond
      have h2 : (r.geoid, j) ∈ assign := (lookupLabel_eq_some hkeys _ _).mp h1
      obtain ⟨p, hp, hg, hr⟩ := (hmemassign _ _).mp h2
      have hpr : p.1 = r := List.inj_on_of_nodup_map hnd (hsub p hp) hrdf hg
      exact List.mem_map.mpr ⟨p, List.mem_filter.mpr ⟨hp, by simp [hr]⟩, hpr⟩
    · intro hmem
      obtain ⟨p, hpf, hpr⟩ := List.mem_map.mp hmem
      obtain ⟨hp, hrank⟩ := List.mem_filter.mp hpf
      have hrankj : rankOf sorted p.2 = j := of_decide_eq_true hrank
      refine ⟨hpr ▸ hsub p hp, ?_⟩
      have h2 : (r.geoid, j) ∈ assign :=
        (hmemassign _ _).mpr ⟨p, hp, by rw [hpr], hrankj⟩
      simp [(lookupLabel_eq_some hkeys _ _).mpr h2]
  have hlen_ls : ls.length = sorted.length := by
    rw [hls]
    exact List.length_map _ _
  have hfilter_lbl : ∀ (j : Nat) (hj : j < sorted.length),
      fL.filter (fun p => decide (rankOf sorted p.2 = j))
        = fL.filter (fun p =>
            decide (p.2 = ls.get ⟨j, by rw [hlen_ls]; exact hj⟩)) := by
    intro j hj
    apply List.filter_congr
    intro p hp
    have hiff := indexOf_eq_iff_nat hlsnodup (by rw [hlen_ls]; exact hj) (hlblmem p hp)
    rw [hrank_fold]
    exact decide_eq_decide.mpr hiff
  have hmean : ∀ (j : Nat) (hj : j < sorted.length),
      listMean ((clusterRows (mergeClusters df assign) j).map
          (fun p => (getCol sc p.1).getD 0))
        = (sorted.get ⟨j, hj⟩).2 := by
    intro j hj
    rw [hval j,
      listMean_perm ((hperm j).map (fun r => (getCol sc r).getD 0)),
      List.map_map, hfilter_lbl j hj]
    have hsmem : sorted.get ⟨j, hj⟩ ∈ groupMeans fL sc := by
      have h1 : sorted.get ⟨j, hj⟩ ∈ sorted := List.get_mem _ _ _
      have hp2 : sorted.Perm (groupMeans fL sc) := by
        rw [hsorted]
        exact sortMeansDesc_perm _
      exact hp2.subset h1
    have hval2 := groupMeans_val hsmem
    have hfst : ls.get ⟨j, by rw [hlen_ls]; exact hj⟩ = (sorted.get ⟨j, hj⟩).1 := by
      subst hls
      exact get_map_fst hj _
    rw [hfst]
    exact hval2.symm
  have hsortedne : 0 < sorted.length := by
    obtain ⟨p, hp⟩ := List.exists_mem_of_ne_nil fL hne
    have h1 : p.2 ∈ ls := hlblmem p hp
    have h2 : 0 < ls.length := List.length_pos.mpr (List.ne_nil_of_mem h1)
    rw [hlen_ls] at h2
    exact h2
  have hj0ls : (0 : Nat) < ls.length := by
    rw [hlen_ls]
    exact hsortedne
  have h0 : clusterRows (mergeClusters df assign) 0 ≠ [] := by
    have hl0 : ls.get ⟨0, hj0ls⟩ ∈ ls := List.get_mem _ _ _
    have hmem0 : ls.get ⟨0, hj0ls⟩ ∈ fL.map Prod.snd := by
      have hpermls : ls.Perm (dropDupNat (fL.map Prod.snd)) := by
        rw [hls, hsorted]
        have hperm0 := (sortMeansDesc_perm (groupMeans fL sc)).map Prod.fst
        rw [groupMeans_keys] at hperm0
        exact hperm0
      exact (mem_dropDupNat _ _).mp (hpermls.subset hl0)
    obtain ⟨p, hp, hps⟩ := List.mem_map.mp hmem0
    have hrank0 : rankOf sorted p.2 = 0 := by
      rw [hrank_fold]
      exact (indexOf_eq_iff_nat hlsnodup hj0ls (hlblmem p hp)).mpr hps
    have hassignmem : (p.1.geoid, 0) ∈ assign :=
      (hmemassign _ _).mpr ⟨p, hp, rfl, hrank0⟩
    have hlook : lookupLabel assign p.1.geoid = some 0 :=
      (lookupLabel_eq_some hkeys _ _).mpr hassignmem
    have hmemf : p.1 ∈ df.filter
        (fun r => decide (lookupLabel assign r.geoid = some 0)) :=
      List.mem_filter.mpr ⟨hsub p hp, by simp [hlook]⟩
    rw [hcr 0]
    intro hc
    rw [List.map_eq_nil_iff] at hc
    rw [hc] at hmemf
    exact absurd hmemf (by simp)
  refine ⟨h0, ?_⟩
  intro j hjne
  have hj : j < sorted.length := by
    rw [hcr j] at hjne
    have hex : ∃ r, r ∈ df.filter
        (fun r => decide (lookupLabel assign r.geoid = some j)) := by
      rcases hf : df.filter (fun r => decide (lookupLabel assign r.geoid = some j))
        with _ | ⟨r, rs⟩
      · rw [hf] at hjne
        exact absurd rfl hjne
      · exact ⟨r, by rw [hf]; exact List.mem_cons_self r rs⟩
    obtain ⟨r, hr⟩ := hex
    obtain ⟨hrdf, hcond⟩ := List.mem_filter.mp hr
    have h2 := (lookupLabel_eq_some hkeys _ _).mp (of_decide_eq_true hcond)
    obtain ⟨p, hp, _, hrank⟩ := (hmemassign _ _).mp h2
    have hlt : ls.indexOf p.2 < ls.length := List.indexOf_lt_length.mpr (hlblmem p hp)
    rw [hrank_fold] at hrank
    rw [← hrank, ← hlen_ls]
    exact hlt
  rw [hmean j hj, hmean 0 hsortedne]
  subst hsorted
  exact sorted_head_dominates hj hsortedne

/-- Claim C6.  After `add_clusters` re-ranks the k-means labels, for every
clustered table with unique identifiers, at least 20 complete rows, a
label per fitted row and `ces_score` among the clustering columns, the
mean environmental-burden score of the rows labelled `0` is greater than
or equal to the mean of the rows carrying any other (nonempty) label, and
label `0` is inhabited. -/
theorem c6_cluster_rerank_worst_first (labeler : List MRow → Nat → List Nat)
    (df : List MRow) (cols : List MCol) (k : Nat)
    (hnd : (df.map MRow.geoid).Nodup)
    (hlab : (labeler (fitRows df cols) k).length = (fitRows df cols).length)
    (hces : MCol.ces_score ∈ cols)
    (h20 : 20 ≤ (fitRows df cols).length) :
    clusterRows (add_clusters labeler df cols k).1 0 ≠ []
    ∧ ∀ j, clusterRows (add_clusters labeler df cols k).1 j ≠ [] →
        listMean (cesOf (clusterRows (add_clusters labeler df cols k).1 j))
          ≤ listMean (cesOf (clusterRows (add_clusters labeler df cols k).1 0)) := by
  have hres : (add_clusters labeler df cols k).1
      = mergeClusters df (clusterAssignments
          ((fitRows df cols).zip (labeler (fitRows df cols) k)) (sortCol cols)) := by
    simp only [add_clusters]
    rw [if_neg (not_lt.mpr h20)]
  have hfst : ((fitRows df cols).zip (labeler (fitRows df cols) k)).map Prod.fst
      = fitRows df cols := List.map_fst_zip _ _ (le_of_eq hlab.symm)
  have hsub : ∀ p ∈ (fitRows df cols).zip (labeler (fitRows df cols) k),
      p.1 ∈ df := by
    intro p hp
    have h1 : p.1 ∈ ((fitRows df cols).zip (labeler (fitRows df cols) k)).map
        Prod.fst := List.mem_map.mpr ⟨p, hp, rfl⟩
    rw [hfst] at h1
    exact List.mem_of_mem_filter h1
  have hfstnd : (((fitRows df cols).zip
      (labeler (fitRows df cols) k)).map Prod.fst).Nodup := by
    rw [hfst]
    exact List.Nodup.of_map _ (fitRows_geoid_nodup df cols hnd)
  have hne : (fitRows df cols).zip (labeler (fitRows df cols) k) ≠ [] := by
    have hlen : ((fitRows df cols).zip (labeler (fitRows df cols) k)).length
        = (fitRows df cols).length := by
      have := congrArg List.length hfst
      rw [List.length_map] at this
      exact this
    intro hcontra
    rw [hcontra] at hlen
    simp only [List.length_nil] at hlen
    omega
  have hcore := cluster_rank_mean_core df
    ((fitRows df cols).zip (labeler (fitRows df cols) k)) (sortCol cols)
    (sortMeansDesc (groupMeans
      ((fitRows df cols).zip (labeler (fitRows df cols) k)) (sortCol cols)))
    ((sortMeansDesc (groupMeans
      ((fitRows df cols).zip (labeler (fitRows df cols) k)) (sortCol cols))).map
        Prod.fst)
    (clusterAssignments
      ((fitRows df cols).zip (labeler (fitRows df cols) k)) (sortCol cols))
    rfl rfl rfl hnd hsub hfstnd hne
  rw [hres, sortCol_of_mem hces]
  rw [sortCol_of_mem hces] at hcore
  exact hcore

/-- A complete demonstration row with identifier `i`. -/
def mkDemoRow (i : Nat) : MRow :=
  ⟨GVal.num i, some 1, some 1, some 1, some 1, some 1, some 1, some 1, some 1,
    some 1, some 1, some 1⟩

/-- Twenty complete demonstration rows with distinct identifiers. -/
def demoTable : List MRow := (List.range 20).map mkDemoRow

/-- A concrete stand-in for the external clustering library: one raw label
per fitted row. -/
def demoLabeler : List MRow → Nat → List Nat :=
  fun fit _ => List.replicate fit.length 0

/-- Closed witness for claim C6, on twenty complete rows. -/
theorem c6_cluster_rerank_witness :
    (demoTable.map MRow.geoid).Nodup
    ∧ (demoLabeler (fitRows demoTable [MCol.ces_score]) 5).length
        = (fitRows demoTable [MCol.ces_score]).length
    ∧ MCol.ces_score ∈ [MCol.ces_score]
    ∧ 20 ≤ (fitRows demoTable [MCol.ces_score]).length
    ∧ (clusterRows (add_clusters demoLabeler demoTable [MCol.ces_score] 5).1 0 ≠ []
      ∧ ∀ j, clusterRows (add_clusters demoLabeler demoTable [MCol.ces_score] 5).1 j
            ≠ [] →
          listMean (cesOf (clusterRows
            (add_clusters demoLabeler demoTable [MCol.ces_score] 5).1 j))
            ≤ listMean (cesOf (clusterRows
              (add_clusters demoLabeler demoTable [MCol.ces_score] 5).1 0))) :=
  ⟨by decide, by decide, by decide, by decide,
    c6_cluster_rerank_worst_first demoLabeler demoTable [MCol.ces_score] 5
      (by decide) (by decide) (by decide) (by decide)⟩

/-- Closed witness for claim C9, on twenty complete rows (the thresholds
are met, so both operations proceed). -/
theorem c9_minimum_rows_witness :
    (demoTable.map MRow.geoid).Nodup
    ∧ (demoLabeler (fitRows demoTable [MCol.ces_score]) 5).length
        = (fitRows demoTable [MCol.ces_score]).length
    ∧ (((demoTable.filter
          (fun r => rowComplete (MCol.ces_score :: [MCol.population]) r)).length < 20 →
        (run_ols some demoTable MCol.ces_score [MCol.population]).1 = none
          ∧ (run_ols some demoTable MCol.ces_score [MCol.population]).2 ≠ [])
      ∧ (20 ≤ (demoTable.filter
          (fun r => rowComplete (MCol.ces_score :: [MCol.population]) r)).length →
        (run_ols some demoTable MCol.ces_score [MCol.population]).1
            = some (demoTable.filter
              (fun r => rowComplete (MCol.ces_score :: [MCol.population]) r))
          ∧ (run_ols some demoTable MCol.ces_score [MCol.population]).2 = [])
      ∧ ((fitRows demoTable [MCol.ces_score]).length < 20 →
        (add_clusters demoLabeler demoTable [MCol.ces_score] 5).1
            = demoTable.map (fun r => (r, none))
          ∧ (add_clusters demoLabeler demoTable [MCol.ces_score] 5).2 ≠ [])
      ∧ (20 ≤ (fitRows demoTable [MCol.ces_score]).length →
        (add_clusters demoLabeler demoTable [MCol.ces_score] 5).2 = []
          ∧ (add_clusters demoLabeler demoTable
              [MCol.ces_score] 5).1.map Prod.fst = demoTable)) :=
  ⟨by decide, by decide,
    c9_minimum_row_thresholds some demoLabeler demoTable MCol.ces_score
      [MCol.population] [MCol.ces_score] 5 (by decide) (by decide)⟩
